import Mathlib

/-!
The program affix: its chunk-stream parser and its in-place sample-rate patch.

A shallow embedding of `src/affix/main.c`.  The program walks the chunks of
AIFF / AIFF-C files through one file descriptor, counts the chunk types that
may occur only once, prints one line per common chunk and, with `-s`,
overwrites the sample-rate field in place.

Conventions of the embedding

* a file is the list of its bytes, the descriptor is the pair (file, offset);
* the C globals (flags, counters, the chunk buffer, the two output streams)
  are the fields of `State`; `exit(-1)` is the outcome `Outcome.exit`;
* `read`, `write` and `lseek` behave as on a regular file: a read returns
  the bytes that are there (fewer at the end of the file), a write past the
  end extends the file, a seek fails only for a negative target.  Device
  errors (a `-1` from `read` or `write`) are outside the embedding;
* the chunk buffer of the program holds `maxChunkSize` = 287 bytes and
  `getChunkBody` reads into it without a bound check.  A read that
  transfers more than the 279 bytes behind the header overruns the block;
  what the C program does from there is undefined, so the embedding follows
  the run no further than that read: the outcome is `Outcome.exit` with the
  mark `Diag.bufferOverrun`, and no return of `getChunkBody` is claimed;
* the debug option `-d` only adds trace output and is left out.
-/

namespace Affix

/-- One byte of a file or of memory. -/
abbrev Byte := Fin 256

/-! ## Constants of `AIFF.h`

`AIFF.h` (CoreServices) is not part of the repository.  The four-character
constants have the value of their characters read big-endian; the structures
are packed on 2-byte boundaries, which gives the field offsets below. -/

/-- Tag 'FORM'. -/
def FORMID : Nat := 0x464F524D
/-- Form type 'AIFF'. -/
def AIFFID : Nat := 0x41494646
/-- Form type 'AIFC'. -/
def AIFCID : Nat := 0x41494643
/-- Tag 'COMM'. -/
def CommonID : Nat := 0x434F4D4D
/-- Tag 'FVER'. -/
def FormatVersionID : Nat := 0x46564552
/-- Tag 'SSND'. -/
def SoundDataID : Nat := 0x53534E44
/-- Tag 'MARK'. -/
def MarkerID : Nat := 0x4D41524B
/-- Tag 'INST'. -/
def InstrumentID : Nat := 0x494E5354
/-- Tag 'MIDI'. -/
def MIDIDataID : Nat := 0x4D494449
/-- Tag 'AESD'. -/
def AudioRecordingID : Nat := 0x41455344
/-- Tag 'APPL'. -/
def ApplicationSpecificID : Nat := 0x4150504C
/-- Tag 'COMT'. -/
def CommentID : Nat := 0x434F4D54
/-- Tag 'NAME'. -/
def NameID : Nat := 0x4E414D45
/-- Tag 'AUTH'. -/
def AuthorID : Nat := 0x41555448
/-- Tag '(c) '. -/
def CopyrightID : Nat := 0x28632920
/-- Tag 'ANNO'. -/
def AnnotationID : Nat := 0x414E4E4F
/-- Timestamp of AIFF-C version 1. -/
def AIFCVersion1 : Nat := 0xA2805140

/-- The value of `sizeof(ChunkHeader)`: ckID and ckSize. -/
def sizeofChunkHeader : Nat := 8
/-- The value of `sizeof(containerChunkPtr->formType)`. -/
def sizeofFormType : Nat := 4
/-- The value of `sizeof(extended80)`. -/
def sizeofExtended80 : Nat := 10
/-- The value of `offsetof(ExtCommonChunk, numChannels)`. -/
def offsetofNumChannels : Nat := 8
/-- The value of `offsetof(ExtCommonChunk, sampleRate)`. -/
def offsetofSampleRate : Nat := 16
/-- The size of the chunk buffer: `sizeof(ExtCommonChunk) + 255`. -/
def maxChunkSize : Nat := 32 + 255

/-! ## Words and bytes -/

/-- The 32-bit word the (little-endian) host reads from the first four bytes
of `bs`, as in `chunkPtr->ckID`. -/
def hostWord (bs : List Byte) : Nat :=
  (bs.getD 0 0).val + (bs.getD 1 0).val * 2 ^ 8 + (bs.getD 2 0).val * 2 ^ 16
    + (bs.getD 3 0).val * 2 ^ 24

/-- The 16-bit word the host reads from the first two bytes of `bs`. -/
def hostHalf (bs : List Byte) : Nat :=
  (bs.getD 0 0).val + (bs.getD 1 0).val * 2 ^ 8

/-- Byte swap of a 32-bit word. -/
def CFSwapInt32 (x : Nat) : Nat :=
  (x % 256) * 2 ^ 24 + (x / 2 ^ 8 % 256) * 2 ^ 16 + (x / 2 ^ 16 % 256) * 2 ^ 8
    + (x / 2 ^ 24 % 256)

/-- Byte swap of a 16-bit word. -/
def CFSwapInt16 (x : Nat) : Nat :=
  (x % 256) * 2 ^ 8 + (x / 2 ^ 8 % 256)

/-- The `k` low bytes of `x`, most significant first. -/
def bigEndian : Nat → Nat → List Byte
  | 0, _ => []
  | k + 1, x => ⟨x / 256 ^ k % 256, Nat.mod_lt _ (by decide)⟩ :: bigEndian k x

/-- The position of the leading one bit of `r` (0 for `r < 2`), found in at
most `k` halvings. -/
def leadingBit : Nat → Nat → Nat
  | 0, _ => 0
  | k + 1, r => if r < 2 then 0 else leadingBit k (r / 2) + 1

/-- Modelled from the spec: the library routine `ldtox80` (not part of the
repository) applied to a non-negative integer rate.  An Extended80 is a
packed, 10-byte, big-endian value: 1 sign bit, a 15-bit exponent biased by
16383 and a 64-bit mantissa whose leading integer bit is explicit; zero is
all zero bytes. -/
def ldtox80 (r : Nat) : List Byte :=
  if r = 0 then List.replicate 10 0
  else
    let e := leadingBit r r
    let man := if e ≤ 63 then r * 2 ^ (63 - e) else r / 2 ^ (e - 63)
    bigEndian 2 (16383 + e) ++ bigEndian 8 man

/-- The source's `padOddSize`. -/
def padOddSize (size : Nat) : Nat :=
  if size % 2 ≠ 0 then size + 1 else size

/-- The four bytes at the head of `bs` read as a big-endian number. -/
def be32 (bs : List Byte) : Nat :=
  (bs.getD 0 0).val * 2 ^ 24 + (bs.getD 1 0).val * 2 ^ 16 + (bs.getD 2 0).val * 2 ^ 8
    + (bs.getD 3 0).val

/-- The tag of the chunk header that starts at offset `p` of a file. -/
def tagAt (file : List Byte) (p : Nat) : Nat := be32 (file.drop p)

/-- The body size declared by the chunk header that starts at offset `p`. -/
def sizeAt (file : List Byte) (p : Nat) : Nat := be32 (file.drop (p + 4))

/-! ## Files and the descriptor -/

/-- What `read(fd, _, n)` returns at offset `pos`: the bytes that are there. -/
def readAt (file : List Byte) (pos n : Nat) : List Byte :=
  (file.drop pos).take n

/-- The file after `write(fd, data, _)` at offset `pos`; a write beyond the
end leaves a gap of zero bytes. -/
def writeAt (file : List Byte) (pos : Nat) (data : List Byte) : List Byte :=
  file.take pos ++ List.replicate (pos - file.length) 0 ++ data
    ++ file.drop (pos + data.length)

/-- The result of `lseek(fd, off, SEEK_CUR)`: the new offset, or `none` (the
call returns -1) when the target is negative. -/
def lseekCur (pos : Nat) (off : Int) : Option Nat :=
  if 0 ≤ (pos : Int) + off then some ((pos : Int) + off).toNat else none

/-- Memory after copying `data` to offset `off` of the buffer. -/
def store (buf : List Byte) (off : Nat) (data : List Byte) : List Byte :=
  buf.take off ++ data ++ buf.drop (off + data.length)

/-! ## Program state -/

/-- The per-file chunk counters (C `unsigned int` globals). -/
structure Counts where
  commChunkCount : Nat
  formatVersionChunkCount : Nat
  soundDataChunkCount : Nat
  markerChunkCount : Nat
  instrumentChunkCount : Nat
  midiDataChunkCount : Nat
  audioRecordingChunkCount : Nat
  commentChunkCount : Nat
  nameChunkCount : Nat
  authorChunkCount : Nat
  copyrightChunkCount : Nat
  deriving DecidableEq, Repr

/-- The counters as `main` resets them before each file. -/
def Counts.zero : Counts :=
  ⟨0, 0, 0, 0, 0, 0, 0, 0, 0, 0, 0⟩

/-- The effect of `++` on an `unsigned int`. -/
def incr (c : Nat) : Nat := (c + 1) % 2 ^ 32

/-- The diagnostics written to the error stream. -/
inductive Diag where
  | shortHeader
  | shortBody
  /-- Not a message of the program: the mark of a run that is followed no
  further because a read went past the end of the chunk buffer. -/
  | bufferOverrun
  | noCOMM
  | noFVER
  | formMissing
  | formType
  | dupFORM
  | dupCOMM
  | dupFVER
  | fverTimestamp
  | dupSSND
  | dupMARK
  | dupINST
  | dupMIDI
  | dupAESD
  | dupCOMT
  | dupNAME
  | dupAUTH
  | dupCopyright
  | skipSeekFailed
  | unknownChunk
  | backSeekFailed
  deriving DecidableEq, Repr

/-- The numbers the verbose form of the output line shows besides the
rate, and the variant it names ("AIFC" or "AIFF"). -/
structure Detail where
  numChannels : Nat
  numSampleFrames : Nat
  sampleSize : Nat
  compressed : Bool
  deriving DecidableEq, Repr

/-- The values printed on the line of standard output for a common chunk.
The rate is kept as the ten bytes `x80told` is applied to.  Two parts of
the output are not recorded: the notice about a fractional rate, which
depends on the decoded `long double`, and the compression name of the
verbose line of a compressed file, a C string that CoreFoundation makes of
the Pascal string in the buffer, in a block sized from the string's first
character. -/
structure Line where
  fileName : Nat
  sampleRate : List Byte
  detail : Option Detail
  /-- The rate of "sample rate reset to", with `-s`. -/
  reset : Option Nat
  deriving DecidableEq, Repr

/-- The option flags set by `getopt` and the rate given with `-s`. -/
structure Opts where
  sampleRateOpt : Bool
  noWriteOpt : Bool
  verboseOpt : Bool
  /-- The value of `inputSampleRate`, an `unsigned int`. -/
  sampleRate : Nat
  deriving DecidableEq, Repr

/-- The globals of the program together with the open file. -/
structure State where
  /-- The bytes of the file behind `fd`. -/
  file : List Byte
  /-- The offset of `fd`. -/
  pos : Nat
  /-- The memory at `chunkHeaderPtr`, shared by all the chunk pointers. -/
  buf : List Byte
  foundEOF : Bool
  invalidFile : Bool
  aiffIsCompressed : Bool
  counts : Counts
  /-- The index in `argv` of the file being processed. -/
  fileName : Nat
  /-- Standard output. -/
  out : List Line
  /-- The error stream: file and diagnostic. -/
  err : List (Nat × Diag)
  /-- Instrumentation: the number of calls of `getChunks` so far. -/
  calls : Nat
  deriving DecidableEq, Repr

/-- The state when `main` enters the loop over the files. -/
def State.init : State where
  file := []
  pos := 0
  buf := List.replicate maxChunkSize 0
  foundEOF := false
  invalidFile := false
  aiffIsCompressed := false
  counts := Counts.zero
  fileName := 0
  out := []
  err := []
  calls := 0

/-- Append a diagnostic for the current file to the error stream. -/
def State.report (s : State) (d : Diag) : State :=
  { s with err := s.err ++ [(s.fileName, d)] }

/-- A diagnostic printed under a condition. -/
def State.reportIf (s : State) (c : Prop) [Decidable c] (d : Diag) : State :=
  if c then s.report d else s

/-- The statement `invalidFile = TRUE` after its `fprintf`. -/
def State.invalid (s : State) (d : Diag) : State :=
  { s.report d with invalidFile := true }

/-- The field `ckSize` of the chunk in the buffer, byte-swapped. -/
def State.ckSize (s : State) : Nat := CFSwapInt32 (hostWord (s.buf.drop 4))

/-- A function of the program either returns an id or ends the process. -/
inductive Outcome where
  | ret (id : Nat) (s : State)
  | exit (s : State)
  deriving DecidableEq, Repr

/-- The state an outcome carries. -/
def Outcome.state : Outcome → State
  | .ret _ s => s
  | .exit s => s

/-! ## The reader -/

/-- The source's `getChunkHead`: `memset` of the first `sizeof(maxChunkSize)`
= 8 bytes, then one `read` of 8 bytes. -/
def getChunkHead (s : State) : Outcome :=
  let got := readAt s.file s.pos sizeofChunkHeader
  let s1 : State :=
    { s with buf := store (store s.buf 0 (List.replicate 8 0)) 0 got
             pos := s.pos + got.length }
  if got.length ≠ sizeofChunkHeader then
    if got.length ≠ 0 then
      .exit (s1.report .shortHeader)
    else
      let s2 := s1.reportIf (s1.counts.commChunkCount = 0) .noCOMM
      let s3 :=
        s2.reportIf (s2.aiffIsCompressed = true ∧ s2.counts.formatVersionChunkCount = 0)
          .noFVER
      .ret 0 { s3 with foundEOF := true }
  else
    .ret (hostWord s1.buf) s1

/-- The source's `getChunkBody`: one `read` of `size` bytes behind the
header in the buffer.  The buffer has `maxChunkSize` bytes and the source
does not compare `size` with it: a read that transfers more than
`maxChunkSize - sizeof(ChunkHeader)` bytes runs over the end of the block.
The behaviour of the program is undefined from there, and the run is
followed no further: the outcome is an exit with `Diag.bufferOverrun`. -/
def getChunkBody (s : State) (size : Nat) : Outcome :=
  let got := readAt s.file s.pos size
  let s1 : State :=
    { s with buf := store s.buf sizeofChunkHeader got
             pos := s.pos + got.length }
  if maxChunkSize - sizeofChunkHeader < got.length then .exit (s1.report .bufferOverrun)
  else if got.length ≠ size then .exit (s1.report .shortBody)
  else .ret (hostWord s1.buf) s1

/-- The source's `getFORMChunk`. -/
def getFORMChunk (s : State) : Outcome :=
  let got := readAt s.file s.pos sizeofChunkHeader
  let s1 : State :=
    { s with buf := store (store s.buf 0 (List.replicate 8 0)) 0 got
             pos := s.pos + got.length }
  if got.length ≠ sizeofChunkHeader then .exit (s1.report .shortHeader)
  else if CFSwapInt32 (hostWord s1.buf) = FORMID then
    let ft := readAt s1.file s1.pos sizeofFormType
    let s2 : State :=
      { s1 with buf := store s1.buf sizeofChunkHeader ft
                pos := s1.pos + ft.length }
    if ft.length ≠ sizeofFormType then .exit (s2.report .shortBody)
    else
      let formType := CFSwapInt32 (hostWord (s2.buf.drop 8))
      if formType = AIFFID then
        .ret (hostWord s2.buf) { s2 with aiffIsCompressed := false }
      else if formType = AIFCID then
        .ret (hostWord s2.buf) { s2 with aiffIsCompressed := true }
      else
        .ret (hostWord s2.buf) (s2.invalid .formType)
  else
    .ret (hostWord s1.buf) (s1.invalid .formMissing)

/-! ## The dispatcher -/

/-- The code at the label `skipChunk`: seek over the padded body. -/
def skipChunk (s : State) (id : Nat) : Outcome :=
  match lseekCur s.pos (padOddSize s.ckSize) with
  | none => .ret id (s.invalid .skipSeekFailed)
  | some p => .ret id { s with pos := p }

/-- The statement `if (++xChunkCount > 1) { fprintf(..); invalidFile = TRUE; }`
with `c` the counters after the increment and `n` the incremented one. -/
def State.count (s : State) (c : Counts) (n : Nat) (d : Diag) : State :=
  if n > 1 then ({ s with counts := c } : State).invalid d else { s with counts := c }

/-- The part of the source's `getChunks` after the call of `getChunkHead`:
the test of `foundEOF` and the `switch` on the tag, with `id` the returned
id and `s1` the state the call left. -/
def dispatch (id : Nat) (s1 : State) : Outcome :=
  if s1.foundEOF = true then .ret 0 s1
  else if CFSwapInt32 id = FORMID then
    .ret id (s1.invalid .dupFORM)
  else if CFSwapInt32 id = CommonID then
    let n := incr s1.counts.commChunkCount
    let s2 := s1.count { s1.counts with commChunkCount := n } n .dupCOMM
    getChunkBody s2 (padOddSize s2.ckSize)
  else if CFSwapInt32 id = FormatVersionID then
    let n := incr s1.counts.formatVersionChunkCount
    let s2 := s1.count { s1.counts with formatVersionChunkCount := n } n .dupFVER
    match getChunkBody s2 (padOddSize s2.ckSize) with
    | .exit s3 => .exit s3
    | .ret id3 s3 =>
      .ret id3
        (s3.reportIf (CFSwapInt32 (hostWord (s3.buf.drop 8)) ≠ AIFCVersion1) .fverTimestamp)
  else if CFSwapInt32 id = SoundDataID then
    let n := incr s1.counts.soundDataChunkCount
    skipChunk (s1.count { s1.counts with soundDataChunkCount := n } n .dupSSND) id
  else if CFSwapInt32 id = MarkerID then
    let n := incr s1.counts.markerChunkCount
    skipChunk (s1.count { s1.counts with markerChunkCount := n } n .dupMARK) id
  else if CFSwapInt32 id = InstrumentID then
    let n := incr s1.counts.instrumentChunkCount
    skipChunk (s1.count { s1.counts with instrumentChunkCount := n } n .dupINST) id
  else if CFSwapInt32 id = MIDIDataID then
    let n := incr s1.counts.midiDataChunkCount
    skipChunk (s1.count { s1.counts with midiDataChunkCount := n } n .dupMIDI) id
  else if CFSwapInt32 id = AudioRecordingID then
    let n := incr s1.counts.audioRecordingChunkCount
    skipChunk (s1.count { s1.counts with audioRecordingChunkCount := n } n .dupAESD) id
  else if CFSwapInt32 id = ApplicationSpecificID then
    skipChunk s1 id
  else if CFSwapInt32 id = CommentID then
    let n := incr s1.counts.commentChunkCount
    skipChunk (s1.count { s1.counts with commentChunkCount := n } n .dupCOMT) id
  else if CFSwapInt32 id = NameID then
    let n := incr s1.counts.nameChunkCount
    skipChunk (s1.count { s1.counts with nameChunkCount := n } n .dupNAME) id
  else if CFSwapInt32 id = AuthorID then
    let n := incr s1.counts.authorChunkCount
    skipChunk (s1.count { s1.counts with authorChunkCount := n } n .dupAUTH) id
  else if CFSwapInt32 id = CopyrightID then
    let n := incr s1.counts.copyrightChunkCount
    skipChunk (s1.count { s1.counts with copyrightChunkCount := n } n .dupCopyright) id
  else if CFSwapInt32 id = AnnotationID then
    skipChunk s1 id
  else
    .ret 0 (s1.report .unknownChunk)

/-- The source's `getChunks`. -/
def getChunks (s : State) : Outcome :=
  match getChunkHead { s with calls := s.calls + 1 } with
  | .exit s1 => .exit s1
  | .ret id s1 => dispatch id s1

/-! ## The body of `main` -/

/-- Conversion of a 64-bit unsigned value to the signed `off_t`. -/
def toOff (x : Nat) : Int :=
  if x < 2 ^ 63 then (x : Int) else (x : Int) - 2 ^ 64

/-- The expression `ckSize + offsetof(numChannels) - offsetof(sampleRate)` as
the source computes it for a declared size `n`: in 64-bit unsigned
arithmetic, the result stored in an `off_t`. -/
def backupWrapped (n : Nat) : Int :=
  toOff ((n + offsetofNumChannels + (2 ^ 64 - offsetofSampleRate)) % 2 ^ 64)

/-- The value of `backup` in `main`: `ckSize + offsetof(numChannels) -
offsetof(sampleRate)` as an integer, negative for a declared size below 8.
For a 32-bit size this is the number `backupWrapped` gives (theorem
`backupWrapped_eq`). -/
def backup (s : State) : Int :=
  (s.ckSize : Int) + offsetofNumChannels - offsetofSampleRate

/-- The values `main` prints for the chunk in the buffer. -/
def outputLine (o : Opts) (s : State) : Line where
  fileName := s.fileName
  sampleRate := (s.buf.drop offsetofSampleRate).take sizeofExtended80
  detail :=
    if o.verboseOpt = true then
      some
        { numChannels := CFSwapInt16 (hostHalf (s.buf.drop 8))
          numSampleFrames := CFSwapInt32 (hostWord (s.buf.drop 10))
          sampleSize := CFSwapInt16 (hostHalf (s.buf.drop 14))
          compressed := s.aiffIsCompressed }
    else none
  reset := if o.sampleRateOpt = true then some o.sampleRate else none

/-- The statement `if (sampleRateOpt && noWriteOpt) .. else if (sampleRateOpt
&& !noWriteOpt) ..` of `main` with the descriptor at offset `p`: the dry run
reads the ten bytes there into a local variable, the rewrite writes the
encoded rate there. -/
def accessRate (o : Opts) (s : State) (p : Nat) : State :=
  if o.sampleRateOpt = true ∧ o.noWriteOpt = true then
    { s with pos := p + (readAt s.file p sizeofExtended80).length }
  else if o.sampleRateOpt = true ∧ o.noWriteOpt = false then
    { s with file := writeAt s.file p (ldtox80 o.sampleRate), pos := p + sizeofExtended80 }
  else { s with pos := p }

/-- The block of `main` run when `getChunks` returned the common-chunk id:
remember the offset, seek back by `backup`, read (dry run) or write the
rate, seek to the remembered offset, print the line.  A failed backward
seek is the `continue` of the source.  The final `lseek(.., SEEK_SET)` to a
non-negative offset returns that offset, so its error branch is not taken. -/
def commonChunk (o : Opts) (s : State) : State :=
  let rememberPosition := s.pos
  match lseekCur s.pos (-(backup s)) with
  | none => s.report .backSeekFailed
  | some p =>
    let s1 := accessRate o s p
    let s2 : State := { s1 with pos := rememberPosition }
    { s2 with out := s2.out ++ [outputLine o s2] }

/-- What one pass through the loop of `main` leads to. -/
inductive Step where
  /-- The loop goes on to its next pass. -/
  | next (s : State)
  /-- The call `getChunks` returned 0: the loop is left. -/
  | done (s : State)
  /-- The process exited. -/
  | exit (s : State)
  deriving DecidableEq, Repr

/-- The state a step carries. -/
def Step.state : Step → State
  | .next s => s
  | .done s => s
  | .exit s => s

/-- One pass through `while ((id = getChunks(fd, chunkHeaderPtr)))`: the
call in the loop condition followed by the loop body. -/
def loopStep (o : Opts) (s : State) : Step :=
  match getChunks s with
  | .exit s1 => .exit s1
  | .ret id s1 =>
    if id = 0 then .done s1
    else if s1.foundEOF = true then .next s1
    else if CFSwapInt32 id = CommonID then .next (commonChunk o s1)
    else .next s1

/-- How the chunk loop of one file ends: `getChunks` returned 0, the process
exited, or the embedding ran out of fuel. -/
inductive LoopEnd where
  | done (s : State)
  | exit (s : State)
  | fuel (s : State)
  deriving DecidableEq, Repr

/-- The state a loop end carries. -/
def LoopEnd.state : LoopEnd → State
  | .done s => s
  | .exit s => s
  | .fuel s => s

/-- The chunk loop of `main`, at most `fuel` passes of it. -/
def chunkLoop (o : Opts) : Nat → State → LoopEnd
  | 0, s => .fuel s
  | fuel + 1, s =>
    match loopStep o s with
    | .next s1 => chunkLoop o fuel s1
    | .done s1 => .done s1
    | .exit s1 => .exit s1

/-- How a run ends. -/
inductive Status where
  /-- The loop over the files is through: `exit(0)`. -/
  | finished
  /-- One of the readers called `exit(-1)`. -/
  | aborted
  /-- A chunk loop was cut off by the fuel of the embedding. -/
  | outOfFuel
  deriving DecidableEq, Repr

/-- The result of a run: the files as they are on disk afterwards and the
final globals (with both output streams). -/
structure Run where
  status : Status
  files : List (List Byte)
  final : State
  deriving DecidableEq, Repr

/-- The state after `main` has reset the counters and opened file `i`. -/
def openFile (s : State) (i : Nat) (bytes : List Byte) : State :=
  { s with counts := Counts.zero, fileName := i, file := bytes, pos := 0 }

/-- The loop of `main` over the files named on the command line, from file
number `i` on; `before` are the files already dealt with.  The files named
are taken to be distinct regular files that pass the `stat`, `access` and
`open` calls. -/
def mainLoop (o : Opts) (fuel : Nat) :
    List (List Byte) → Nat → State → List (List Byte) → Run
  | [], _, s, before => ⟨.finished, before, s⟩
  | f :: rest, i, s, before =>
    match getFORMChunk (openFile s i f) with
    | .exit s1 => ⟨.aborted, before ++ s1.file :: rest, s1⟩
    | .ret _ s1 =>
      if s1.invalidFile = true then
        mainLoop o fuel rest (i + 1) s1 (before ++ [s1.file])
      else
        match chunkLoop o fuel s1 with
        | .exit s2 => ⟨.aborted, before ++ s2.file :: rest, s2⟩
        | .fuel s2 => ⟨.outOfFuel, before ++ s2.file :: rest, s2⟩
        | .done s2 =>
          mainLoop o fuel rest (i + 1) { s2 with foundEOF := false }
            (before ++ [s2.file])

/-- The source's `main` after option parsing, on the given files. -/
def main (o : Opts) (fuel : Nat) (files : List (List Byte)) : Run :=
  mainLoop o fuel files 0 State.init []

/-! ## Vocabulary of the statements -/

/-- The state after a whole header has been read at the offset of `s` by
`getChunks`: the header is at the start of the buffer and the offset is 8
further. -/
def headState (s : State) : State :=
  { s with calls := s.calls + 1, buf := readAt s.file s.pos 8 ++ s.buf.drop 8, pos := s.pos + 8 }

/-- The state after `getChunkBody` has read a whole body of `size` bytes at
the offset of `s`. -/
def bodyState (s : State) (size : Nat) : State :=
  { s with buf := store s.buf 8 (readAt s.file s.pos size), pos := s.pos + size }

/-- What the readers and the chunk loop keep of a state `s` in a later state
`s'`: the descriptor is on the same file, and `invalidFile`, once set, stays
set. -/
structure Keeps (s s' : State) : Prop where
  fileName : s'.fileName = s.fileName
  invalid : s.invalidFile = true → s'.invalidFile = true
  compressed : s'.aiffIsCompressed = s.aiffIsCompressed

/-- The chunk types `getChunks` limits to one occurrence per file. -/
inductive Single where
  | comm
  | fver
  | ssnd
  | mark
  | inst
  | aesd
  | comt
  | name
  | auth
  | copyright
  deriving DecidableEq, Repr

/-- The tag of a chunk type limited to one occurrence. -/
def Single.tag : Single → Nat
  | .comm => CommonID
  | .fver => FormatVersionID
  | .ssnd => SoundDataID
  | .mark => MarkerID
  | .inst => InstrumentID
  | .aesd => AudioRecordingID
  | .comt => CommentID
  | .name => NameID
  | .auth => AuthorID
  | .copyright => CopyrightID

/-- The counter of a chunk type limited to one occurrence. -/
def Single.get : Single → Counts → Nat
  | .comm, c => c.commChunkCount
  | .fver, c => c.formatVersionChunkCount
  | .ssnd, c => c.soundDataChunkCount
  | .mark, c => c.markerChunkCount
  | .inst, c => c.instrumentChunkCount
  | .aesd, c => c.audioRecordingChunkCount
  | .comt, c => c.commentChunkCount
  | .name, c => c.nameChunkCount
  | .auth, c => c.authorChunkCount
  | .copyright, c => c.copyrightChunkCount

/-- The counters with the one of the given chunk type replaced. -/
def Single.set : Single → Counts → Nat → Counts
  | .comm, c, n => { c with commChunkCount := n }
  | .fver, c, n => { c with formatVersionChunkCount := n }
  | .ssnd, c, n => { c with soundDataChunkCount := n }
  | .mark, c, n => { c with markerChunkCount := n }
  | .inst, c, n => { c with instrumentChunkCount := n }
  | .aesd, c, n => { c with audioRecordingChunkCount := n }
  | .comt, c, n => { c with commentChunkCount := n }
  | .name, c, n => { c with nameChunkCount := n }
  | .auth, c, n => { c with authorChunkCount := n }
  | .copyright, c, n => { c with copyrightChunkCount := n }

/-- The chunk types whose body `getChunks` reads into the buffer. -/
def readIntoMemory (tag : Nat) : Prop :=
  tag = CommonID ∨ tag = FormatVersionID

/-- The tags `getChunks` recognizes besides the container tag. -/
def localTags : List Nat :=
  [CommonID, FormatVersionID, SoundDataID, MarkerID, InstrumentID, MIDIDataID,
    AudioRecordingID, ApplicationSpecificID, CommentID, NameID, AuthorID, CopyrightID,
    AnnotationID]

/-- All the tags `getChunks` recognizes. -/
def allTags : List Nat := FORMID :: localTags

/-- The byte values that can stand in a recognized tag: printable ASCII
other than '?' and '@'. -/
def tagByte (b : Nat) : Prop :=
  0x20 ≤ b ∧ b < 0x80 ∧ b ≠ 0x3F ∧ b ≠ 0x40

/-- The number the bytes `bs` spell, most significant first. -/
def fromBigEndian (bs : List Byte) : Nat :=
  bs.foldl (fun a b => a * 256 + b.val) 0

/-- Modelled from the spec: the library routine `x80told` (not part of the
repository), as the exact value of the ten bytes.  Read the sign bit, the
15-bit exponent and the 64-bit mantissa; if exponent and mantissa are both
zero the result is zero, otherwise it is
(-1)^sign × mantissa / 2^63 × 2^(exponent − 16383). -/
def x80told (bs : List Byte) : ℚ :=
  let sign := (bs.getD 0 0).val / 128
  let exponent := (bs.getD 0 0).val % 128 * 256 + (bs.getD 1 0).val
  let mantissa := fromBigEndian ((bs.drop 2).take 8)
  if exponent = 0 ∧ mantissa = 0 then 0
  else (-1 : ℚ) ^ sign * (mantissa : ℚ) / 2 ^ 63 * (2 : ℚ) ^ ((exponent : ℤ) - 16383)

/-- The recognized tags at or behind the offset of `s` in its file: the
chunk headers the loop of `main` can still dispatch. -/
def pendingTags (s : State) : Finset Nat :=
  (Finset.range s.file.length).filter (fun q => s.pos ≤ q ∧ tagAt s.file q ∈ allTags)

/-! ## Example files -/

/-- The container header of an uncompressed file: 'FORM', a size, 'AIFF'. -/
def formAIFF : List Byte :=
  [0x46, 0x4F, 0x52, 0x4D, 0, 0, 0, 46, 0x41, 0x49, 0x46, 0x46]

/-- The container header of a compressed file: 'FORM', a size, 'AIFC'. -/
def formAIFC : List Byte :=
  [0x46, 0x4F, 0x52, 0x4D, 0, 0, 0, 64, 0x41, 0x49, 0x46, 0x43]

/-- A format version chunk with the version 1 timestamp. -/
def fverChunk : List Byte :=
  [0x46, 0x56, 0x45, 0x52, 0, 0, 0, 4, 0xA2, 0x80, 0x51, 0x40]

/-- A common chunk of size 18: 2 channels, 1 frame, 16 bits, 44100 Hz. -/
def comm18 : List Byte :=
  [0x43, 0x4F, 0x4D, 0x4D, 0, 0, 0, 18, 0, 2, 0, 0, 0, 1, 0, 16,
    0x40, 0x0E, 0xAC, 0x44, 0, 0, 0, 0, 0, 0]

/-- An extended common chunk of the odd size 23: the fields of `comm18`,
the compression type 'NONE' and an empty compression name, then the pad
byte. -/
def comm23 : List Byte :=
  [0x43, 0x4F, 0x4D, 0x4D, 0, 0, 0, 23, 0, 2, 0, 0, 0, 1, 0, 16,
    0x40, 0x0E, 0xAC, 0x44, 0, 0, 0, 0, 0, 0, 0x4E, 0x4F, 0x4E, 0x45, 0, 0]

/-- A common chunk header that declares the size 0. -/
def comm0 : List Byte :=
  [0x43, 0x4F, 0x4D, 0x4D, 0, 0, 0, 0]

/-- A sound data chunk of size 12: offset 0, block size 0, four bytes of
sound. -/
def ssndChunk : List Byte :=
  [0x53, 0x53, 0x4E, 0x44, 0, 0, 0, 12, 0, 0, 0, 0, 0, 0, 0, 0, 1, 2, 3, 4]

/-- A sound data chunk of the odd size 9 with its pad byte. -/
def ssndOdd : List Byte :=
  [0x53, 0x53, 0x4E, 0x44, 0, 0, 0, 9, 0, 0, 0, 0, 0, 0, 0, 0, 1, 0]

/-- The first twelve bytes of a RIFF/WAVE file: not an AIFF container. -/
def riffWave : List Byte :=
  [0x52, 0x49, 0x46, 0x46, 0, 0, 0, 4, 0x57, 0x41, 0x56, 0x45]

/-- A minimal valid uncompressed file. -/
def goodAIFF : List Byte := formAIFF ++ comm18 ++ ssndChunk

/-- A compressed file whose common chunk has an odd size. -/
def oddAIFC : List Byte := formAIFC ++ fverChunk ++ comm23 ++ ssndChunk

/-- A second container header inside a file: 'FORM' and a size. -/
def formAgain : List Byte :=
  [0x46, 0x4F, 0x52, 0x4D, 0, 0, 0, 26]

/-- A MIDI data chunk of size 2. -/
def midiChunk : List Byte :=
  [0x4D, 0x49, 0x44, 0x49, 0, 0, 0, 2, 0x90, 0x3C]

/-- An annotation chunk of size 0. -/
def annoChunk : List Byte :=
  [0x41, 0x4E, 0x4E, 0x4F, 0, 0, 0, 0]

/-- A chunk with the tag 'JUNK', which `getChunks` does not know. -/
def junkChunk : List Byte :=
  [0x4A, 0x55, 0x4E, 0x4B, 0, 0, 0, 2, 1, 2]

/-- An uncompressed file with two common chunks. -/
def twoCommAIFF : List Byte := formAIFF ++ comm18 ++ comm18

/-- An uncompressed file with a second 'FORM' header before its common
chunk. -/
def nestedFormAIFF : List Byte := formAIFF ++ formAgain ++ comm18

/-- An uncompressed file that holds a format version chunk. -/
def fverInAIFF : List Byte := formAIFF ++ fverChunk ++ comm18

/-- A compressed file without a format version chunk. -/
def noFverAIFC : List Byte := formAIFC ++ comm18

/-- A compressed file with two format version chunks. -/
def twoFverAIFC : List Byte := formAIFC ++ fverChunk ++ fverChunk ++ comm18

/-- An uncompressed file with two MIDI data chunks. -/
def twoMidiAIFF : List Byte := formAIFF ++ comm18 ++ midiChunk ++ midiChunk

/-- An uncompressed file whose common chunk declares the size 0 and is
followed by an annotation chunk only. -/
def shortCommAIFF : List Byte := formAIFF ++ comm0 ++ annoChunk

/-- A common chunk that declares the size 280, with a body of 280 zero
bytes: one byte more than the chunk buffer holds behind the header. -/
def comm280 : List Byte :=
  [0x43, 0x4F, 0x4D, 0x4D, 0, 0, 1, 24] ++ List.replicate 280 0

/-- The options of `affix -s 48000`. -/
def rewrite48000 : Opts := ⟨true, false, false, 48000⟩

/-- The options of `affix -n -s 48000`. -/
def dryRun48000 : Opts := ⟨true, true, false, 48000⟩

/-- The options of a plain `affix`. -/
def printOnly : Opts := ⟨false, false, false, 0⟩


/-! # Properties -/

/-! ## Words, reads and stores -/

theorem CFSwapInt32_hostWord (bs : List Byte) : CFSwapInt32 (hostWord bs) = be32 bs := by
  unfold CFSwapInt32 hostWord be32
  have h0 := (bs.getD 0 0).isLt
  have h1 := (bs.getD 1 0).isLt
  have h2 := (bs.getD 2 0).isLt
  have h3 := (bs.getD 3 0).isLt
  omega

theorem CFSwapInt32_lt (x : Nat) : CFSwapInt32 x < 2 ^ 32 := by
  unfold CFSwapInt32
  omega

theorem hostWord_eq_zero (bs : List Byte) (h : hostWord bs = 0) : be32 bs = 0 := by
  unfold hostWord at h
  unfold be32
  omega

theorem readAt_length (f : List Byte) (p n : Nat) :
    (readAt f p n).length = min n (f.length - p) := by
  simp [readAt]

theorem getD_readAt (f : List Byte) (p n i : Nat) (h : i < n) :
    (readAt f p n).getD i 0 = (f.drop p).getD i 0 := by
  simp [readAt, List.getD_eq_getElem?_getD, List.getElem?_take, h]

theorem getD_append_left (a b : List Byte) (i : Nat) (h : i < a.length) :
    (a ++ b).getD i 0 = a.getD i 0 := by
  simp [List.getD_eq_getElem?_getD, List.getElem?_append_left h]

theorem hostWord_append (a b : List Byte) (h : 4 ≤ a.length) :
    hostWord (a ++ b) = hostWord a := by
  unfold hostWord
  rw [getD_append_left a b 0 (by omega), getD_append_left a b 1 (by omega),
    getD_append_left a b 2 (by omega), getD_append_left a b 3 (by omega)]

theorem hostWord_readAt (f : List Byte) (p n : Nat) (h : 4 ≤ n) :
    hostWord (readAt f p n) = hostWord (f.drop p) := by
  unfold hostWord
  rw [getD_readAt f p n 0 (by omega), getD_readAt f p n 1 (by omega),
    getD_readAt f p n 2 (by omega), getD_readAt f p n 3 (by omega)]

theorem store_header (buf got : List Byte) (h : got.length = 8) :
    store (store buf 0 (List.replicate 8 0)) 0 got = got ++ buf.drop 8 := by
  simp [store, h]

theorem lseekCur_forward (p n : Nat) : lseekCur p (n : Int) = some (p + n) := by
  unfold lseekCur
  have : (0 : Int) ≤ (p : Int) + (n : Int) := by omega
  simp only [this, if_true]
  congr 1

theorem padOddSize_even (n : Nat) (h : n % 2 = 0) : padOddSize n = n := by
  simp [padOddSize, h]

theorem padOddSize_odd (n : Nat) (h : n % 2 = 1) : padOddSize n = n + 1 := by
  simp [padOddSize, h]

theorem getChunkHead_header (s : State) (h : s.pos + 8 ≤ s.file.length) :
    getChunkHead s =
      .ret (hostWord (s.file.drop s.pos))
        { s with buf := readAt s.file s.pos 8 ++ s.buf.drop 8, pos := s.pos + 8 } := by
  have hl : (readAt s.file s.pos 8).length = 8 := by
    rw [readAt_length]; omega
  unfold getChunkHead
  simp only [sizeofChunkHeader, hl, ne_eq, not_true_eq_false, if_false]
  rw [store_header _ _ hl, hostWord_append _ _ (by omega), hostWord_readAt _ _ _ (by omega)]

theorem getD_drop (l : List Byte) (k i : Nat) : (l.drop k).getD i 0 = l.getD (k + i) 0 := by
  simp [List.getD_eq_getElem?_getD, List.getElem?_drop]

@[simp] theorem report_file (s : State) (d : Diag) : (s.report d).file = s.file := rfl
@[simp] theorem report_pos (s : State) (d : Diag) : (s.report d).pos = s.pos := rfl
@[simp] theorem report_buf (s : State) (d : Diag) : (s.report d).buf = s.buf := rfl
@[simp] theorem report_foundEOF (s : State) (d : Diag) : (s.report d).foundEOF = s.foundEOF := rfl
@[simp] theorem report_invalidFile (s : State) (d : Diag) :
    (s.report d).invalidFile = s.invalidFile := rfl
@[simp] theorem report_counts (s : State) (d : Diag) : (s.report d).counts = s.counts := rfl
@[simp] theorem report_calls (s : State) (d : Diag) : (s.report d).calls = s.calls := rfl
@[simp] theorem report_out (s : State) (d : Diag) : (s.report d).out = s.out := rfl
@[simp] theorem report_compressed (s : State) (d : Diag) :
    (s.report d).aiffIsCompressed = s.aiffIsCompressed := rfl
@[simp] theorem report_fileName (s : State) (d : Diag) :
    (s.report d).fileName = s.fileName := rfl
@[simp] theorem report_ckSize (s : State) (d : Diag) : (s.report d).ckSize = s.ckSize := rfl

@[simp] theorem reportIf_file (s : State) (c : Prop) [Decidable c] (d : Diag) :
    (s.reportIf c d).file = s.file := by
  unfold State.reportIf; split <;> rfl
@[simp] theorem reportIf_pos (s : State) (c : Prop) [Decidable c] (d : Diag) :
    (s.reportIf c d).pos = s.pos := by
  unfold State.reportIf; split <;> rfl
@[simp] theorem reportIf_buf (s : State) (c : Prop) [Decidable c] (d : Diag) :
    (s.reportIf c d).buf = s.buf := by
  unfold State.reportIf; split <;> rfl
@[simp] theorem reportIf_foundEOF (s : State) (c : Prop) [Decidable c] (d : Diag) :
    (s.reportIf c d).foundEOF = s.foundEOF := by
  unfold State.reportIf; split <;> rfl
@[simp] theorem reportIf_invalidFile (s : State) (c : Prop) [Decidable c] (d : Diag) :
    (s.reportIf c d).invalidFile = s.invalidFile := by
  unfold State.reportIf; split <;> rfl
@[simp] theorem reportIf_counts (s : State) (c : Prop) [Decidable c] (d : Diag) :
    (s.reportIf c d).counts = s.counts := by
  unfold State.reportIf; split <;> rfl
@[simp] theorem reportIf_calls (s : State) (c : Prop) [Decidable c] (d : Diag) :
    (s.reportIf c d).calls = s.calls := by
  unfold State.reportIf; split <;> rfl
@[simp] theorem reportIf_out (s : State) (c : Prop) [Decidable c] (d : Diag) :
    (s.reportIf c d).out = s.out := by
  unfold State.reportIf; split <;> rfl
@[simp] theorem reportIf_fileName (s : State) (c : Prop) [Decidable c] (d : Diag) :
    (s.reportIf c d).fileName = s.fileName := by
  unfold State.reportIf; split <;> rfl
@[simp] theorem reportIf_compressed (s : State) (c : Prop) [Decidable c] (d : Diag) :
    (s.reportIf c d).aiffIsCompressed = s.aiffIsCompressed := by
  unfold State.reportIf; split <;> rfl

@[simp] theorem invalid_file (s : State) (d : Diag) : (s.invalid d).file = s.file := rfl
@[simp] theorem invalid_pos (s : State) (d : Diag) : (s.invalid d).pos = s.pos := rfl
@[simp] theorem invalid_buf (s : State) (d : Diag) : (s.invalid d).buf = s.buf := rfl
@[simp] theorem invalid_foundEOF (s : State) (d : Diag) :
    (s.invalid d).foundEOF = s.foundEOF := rfl
@[simp] theorem invalid_invalidFile (s : State) (d : Diag) :
    (s.invalid d).invalidFile = true := rfl
@[simp] theorem invalid_counts (s : State) (d : Diag) : (s.invalid d).counts = s.counts := rfl
@[simp] theorem invalid_calls (s : State) (d : Diag) : (s.invalid d).calls = s.calls := rfl
@[simp] theorem invalid_out (s : State) (d : Diag) : (s.invalid d).out = s.out := rfl
@[simp] theorem invalid_compressed (s : State) (d : Diag) :
    (s.invalid d).aiffIsCompressed = s.aiffIsCompressed := rfl
@[simp] theorem invalid_fileName (s : State) (d : Diag) :
    (s.invalid d).fileName = s.fileName := rfl
@[simp] theorem invalid_ckSize (s : State) (d : Diag) : (s.invalid d).ckSize = s.ckSize := rfl

@[simp] theorem count_file (s : State) (c : Counts) (n : Nat) (d : Diag) :
    (s.count c n d).file = s.file := by
  unfold State.count; split <;> rfl
@[simp] theorem count_pos (s : State) (c : Counts) (n : Nat) (d : Diag) :
    (s.count c n d).pos = s.pos := by
  unfold State.count; split <;> rfl
@[simp] theorem count_buf (s : State) (c : Counts) (n : Nat) (d : Diag) :
    (s.count c n d).buf = s.buf := by
  unfold State.count; split <;> rfl
@[simp] theorem count_foundEOF (s : State) (c : Counts) (n : Nat) (d : Diag) :
    (s.count c n d).foundEOF = s.foundEOF := by
  unfold State.count; split <;> rfl
@[simp] theorem count_counts (s : State) (c : Counts) (n : Nat) (d : Diag) :
    (s.count c n d).counts = c := by
  unfold State.count; split <;> rfl
@[simp] theorem count_calls (s : State) (c : Counts) (n : Nat) (d : Diag) :
    (s.count c n d).calls = s.calls := by
  unfold State.count; split <;> rfl
@[simp] theorem count_out (s : State) (c : Counts) (n : Nat) (d : Diag) :
    (s.count c n d).out = s.out := by
  unfold State.count; split <;> rfl
@[simp] theorem count_compressed (s : State) (c : Counts) (n : Nat) (d : Diag) :
    (s.count c n d).aiffIsCompressed = s.aiffIsCompressed := by
  unfold State.count; split <;> rfl
@[simp] theorem count_fileName (s : State) (c : Counts) (n : Nat) (d : Diag) :
    (s.count c n d).fileName = s.fileName := by
  unfold State.count; split <;> rfl
@[simp] theorem count_ckSize (s : State) (c : Counts) (n : Nat) (d : Diag) :
    (s.count c n d).ckSize = s.ckSize := by
  unfold State.count; split <;> rfl
theorem count_invalidFile (s : State) (c : Counts) (n : Nat) (d : Diag) :
    (s.count c n d).invalidFile = if n > 1 then true else s.invalidFile := by
  unfold State.count; split <;> rfl

@[simp] theorem headState_file (s : State) : (headState s).file = s.file := rfl
@[simp] theorem headState_pos (s : State) : (headState s).pos = s.pos + 8 := rfl
@[simp] theorem headState_foundEOF (s : State) : (headState s).foundEOF = s.foundEOF := rfl
@[simp] theorem headState_invalidFile (s : State) :
    (headState s).invalidFile = s.invalidFile := rfl
@[simp] theorem headState_counts (s : State) : (headState s).counts = s.counts := rfl
@[simp] theorem headState_calls (s : State) : (headState s).calls = s.calls + 1 := rfl
@[simp] theorem headState_out (s : State) : (headState s).out = s.out := rfl
@[simp] theorem headState_fileName (s : State) : (headState s).fileName = s.fileName := rfl
@[simp] theorem headState_compressed (s : State) :
    (headState s).aiffIsCompressed = s.aiffIsCompressed := rfl

theorem ckSize_headState (s : State) (h : s.pos + 8 ≤ s.file.length) :
    (headState s).ckSize = sizeAt s.file s.pos := by
  have hl : (readAt s.file s.pos 8).length = 8 := by
    rw [readAt_length]; omega
  unfold State.ckSize headState sizeAt
  rw [CFSwapInt32_hostWord]
  simp only
  rw [List.drop_append_of_le_length (by omega)]
  unfold be32
  rw [getD_append_left _ _ 0 (by simp [hl]), getD_append_left _ _ 1 (by simp [hl]),
    getD_append_left _ _ 2 (by simp [hl]), getD_append_left _ _ 3 (by simp [hl])]
  simp only [getD_drop, readAt]
  simp [List.getD_eq_getElem?_getD, List.getElem?_take, List.getElem?_drop, Nat.add_assoc]

theorem getChunks_head (s : State) (h : s.pos + 8 ≤ s.file.length) :
    getChunkHead { s with calls := s.calls + 1 } =
      .ret (hostWord (s.file.drop s.pos)) (headState s) := by
  have h1 := getChunkHead_header { s with calls := s.calls + 1 } h
  rw [h1]
  rfl

theorem skipChunk_eq (s : State) (id : Nat) :
    skipChunk s id = .ret id { s with pos := s.pos + padOddSize s.ckSize } := by
  unfold skipChunk
  rw [lseekCur_forward]

theorem tag_of_tagAt (f : List Byte) (p : Nat) :
    CFSwapInt32 (hostWord (f.drop p)) = tagAt f p := CFSwapInt32_hostWord _

/-! ## The header read: three cases -/

theorem getChunkHead_eof (s : State) (h : s.file.length - s.pos = 0) :
    ∃ s', getChunkHead s = .ret 0 s' ∧ s'.foundEOF = true ∧ s'.pos = s.pos ∧
      s'.file = s.file ∧ s'.invalidFile = s.invalidFile ∧ s'.counts = s.counts := by
  have hl : (readAt s.file s.pos sizeofChunkHeader).length = 0 := by
    rw [readAt_length]; omega
  unfold getChunkHead
  simp only [hl]
  rw [if_pos (by decide), if_neg (by decide)]
  refine ⟨_, rfl, rfl, ?_, ?_, ?_, ?_⟩ <;> simp

theorem getChunkHead_short (s : State) (h0 : 0 < s.file.length - s.pos)
    (h8 : s.file.length - s.pos < 8) :
    ∃ s', getChunkHead s = .exit s' ∧ s'.file = s.file := by
  have hl : (readAt s.file s.pos sizeofChunkHeader).length = s.file.length - s.pos := by
    rw [readAt_length, sizeofChunkHeader]; omega
  unfold getChunkHead
  simp only [hl]
  rw [if_pos (by rw [sizeofChunkHeader]; omega), if_pos (by omega)]
  exact ⟨_, rfl, rfl⟩

/-- C6: `getChunkHead` distinguishes three cases by the number `k` of bytes
left at the offset.  With `k = 0` it sets `foundEOF` and returns 0 without
exiting; with `0 < k < 8` the process exits; with `k ≥ 8` it consumes
exactly 8 bytes, leaves `foundEOF` alone and returns the id whose bytes are
the chunk's tag. -/
theorem getChunkHead_three_cases (s : State) :
    (s.file.length - s.pos = 0 →
      ∃ s', getChunkHead s = .ret 0 s' ∧ s'.foundEOF = true ∧ s'.pos = s.pos ∧
        s'.file = s.file ∧ s'.invalidFile = s.invalidFile) ∧
    (0 < s.file.length - s.pos → s.file.length - s.pos < 8 →
      ∃ s', getChunkHead s = .exit s') ∧
    (8 ≤ s.file.length - s.pos →
      ∃ (id : Nat) (s' : State), getChunkHead s = .ret id s' ∧ CFSwapInt32 id = tagAt s.file s.pos ∧
        s'.pos = s.pos + 8 ∧ s'.foundEOF = s.foundEOF ∧ s'.file = s.file ∧
        s'.invalidFile = s.invalidFile) := by
  refine ⟨fun h => ?_, fun h0 h8 => ?_, fun h => ?_⟩
  · obtain ⟨s', h1, h2, h3, h4, h5, _⟩ := getChunkHead_eof s h
    exact ⟨s', h1, h2, h3, h4, h5⟩
  · obtain ⟨s', h1, _⟩ := getChunkHead_short s h0 h8
    exact ⟨s', h1⟩
  · have hp : s.pos + 8 ≤ s.file.length := by omega
    exact ⟨_, _, getChunkHead_header s hp, tag_of_tagAt _ _, rfl, rfl, rfl, rfl⟩

/-- C6, instances: the empty rest of a file, a rest of three bytes and a
whole common chunk. -/
theorem getChunkHead_three_cases_witness :
    (∃ s', getChunkHead { State.init with file := comm18, pos := 26 } = .ret 0 s' ∧
      s'.foundEOF = true) ∧
    (∃ s', getChunkHead { State.init with file := comm18, pos := 23 } = .exit s') ∧
    (∃ (id : Nat) (s' : State), getChunkHead { State.init with file := comm18 } = .ret id s' ∧
      CFSwapInt32 id = CommonID ∧ s'.pos = 8) := by
  refine ⟨?_, ?_, ?_⟩
  · obtain ⟨s', h1, h2, _⟩ :=
      (getChunkHead_three_cases { State.init with file := comm18, pos := 26 }).1 (by decide)
    exact ⟨s', h1, h2⟩
  · exact (getChunkHead_three_cases { State.init with file := comm18, pos := 23 }).2.1
      (by decide) (by decide)
  · obtain ⟨id, s', h1, h2, h3, _⟩ :=
      (getChunkHead_three_cases { State.init with file := comm18 }).2.2 (by decide)
    exact ⟨id, s', h1, h2.trans (by decide), h3⟩

/-! ## The container chunk -/

theorem drop_store_eight (buf got : List Byte) (h : 8 ≤ buf.length) :
    (store buf 8 got).drop 8 = got ++ buf.drop (8 + got.length) := by
  unfold store
  rw [List.append_assoc, List.drop_append_of_le_length (by simp [h])]
  have : (List.take 8 buf).length = 8 := by simp [h]
  rw [List.drop_of_length_le (by omega)]
  rfl

theorem take_store_eight (buf got : List Byte) (h : 8 ≤ buf.length) :
    (store buf 8 got).take 8 = buf.take 8 := by
  unfold store
  rw [List.append_assoc, List.take_append_of_le_length (by simp [h])]
  simp

theorem getFORMChunk_form (s : State) (h : s.pos + 12 ≤ s.file.length)
    (ht : tagAt s.file s.pos = FORMID) :
    ∃ (id : Nat) (s2 : State), s2.pos = s.pos + 12 ∧ s2.file = s.file ∧
      s2.invalidFile = s.invalidFile ∧
      s2.aiffIsCompressed = s.aiffIsCompressed ∧ s2.counts = s.counts ∧ s2.calls = s.calls ∧
      s2.foundEOF = s.foundEOF ∧ s2.out = s.out ∧
      getFORMChunk s =
        if tagAt s.file (s.pos + 8) = AIFFID then
          .ret id { s2 with aiffIsCompressed := false }
        else if tagAt s.file (s.pos + 8) = AIFCID then
          .ret id { s2 with aiffIsCompressed := true }
        else .ret id (s2.invalid .formType) := by
  have hl : (readAt s.file s.pos 8).length = 8 := by
    rw [readAt_length]; omega
  have hf : (readAt s.file (s.pos + 8) 4).length = 4 := by
    rw [readAt_length]; omega
  have hb : 8 ≤ (readAt s.file s.pos 8 ++ List.drop 8 s.buf).length := by
    rw [List.length_append, hl]; omega
  have hw : CFSwapInt32 (hostWord (readAt s.file s.pos 8 ++ List.drop 8 s.buf))
      = FORMID := by
    rw [hostWord_append _ _ (by omega), hostWord_readAt _ _ _ (by omega),
      tag_of_tagAt, ht]
  have hft : CFSwapInt32 (hostWord (List.drop 8 (store
      (readAt s.file s.pos 8 ++ List.drop 8 s.buf) 8
      (readAt s.file (s.pos + 8) 4)))) = tagAt s.file (s.pos + 8) := by
    rw [drop_store_eight _ _ hb,
      hostWord_append _ _ (by omega), hostWord_readAt _ _ _ (by omega),
      tag_of_tagAt]
  unfold getFORMChunk
  simp only [sizeofChunkHeader, sizeofFormType, hl, store_header _ _ hl, hw, hf, hft,
    if_true, ne_eq, not_true_eq_false, if_false]
  exact ⟨_, { s with buf := _, pos := s.pos + 8 + 4 }, rfl, rfl, rfl, rfl, rfl, rfl, rfl, rfl,
    rfl⟩

/-- C7: for a file that starts with the container tag 'FORM' (and holds the
four bytes of the form type), `getFORMChunk` returns; it sets
`aiffIsCompressed` to false when the form type is 'AIFF' and to true when
it is 'AIFC', leaving `invalidFile` as it was in both cases; for every other
form type it sets `invalidFile` and leaves `aiffIsCompressed` as it was. -/
theorem getFORMChunk_form_type (s : State) (h : s.pos + 12 ≤ s.file.length)
    (ht : tagAt s.file s.pos = FORMID) :
    ∃ (id : Nat) (s' : State), getFORMChunk s = .ret id s' ∧
      (tagAt s.file (s.pos + 8) = AIFFID →
        s'.aiffIsCompressed = false ∧ s'.invalidFile = s.invalidFile) ∧
      (tagAt s.file (s.pos + 8) = AIFCID →
        s'.aiffIsCompressed = true ∧ s'.invalidFile = s.invalidFile) ∧
      (tagAt s.file (s.pos + 8) ≠ AIFFID → tagAt s.file (s.pos + 8) ≠ AIFCID →
        s'.invalidFile = true ∧ s'.aiffIsCompressed = s.aiffIsCompressed) := by
  obtain ⟨id, s2, _, _, hi, hc, _, _, _, _, hg⟩ := getFORMChunk_form s h ht
  by_cases h1 : tagAt s.file (s.pos + 8) = AIFFID
  · rw [if_pos h1] at hg
    refine ⟨id, _, hg, fun _ => ⟨rfl, hi⟩, fun h2 => ?_, fun h3 => absurd h1 h3⟩
    rw [h1] at h2
    exact absurd h2 (by decide)
  · rw [if_neg h1] at hg
    by_cases h2 : tagAt s.file (s.pos + 8) = AIFCID
    · rw [if_pos h2] at hg
      exact ⟨id, _, hg, fun h3 => absurd h3 h1, fun _ => ⟨rfl, hi⟩, fun _ h3 => absurd h2 h3⟩
    · rw [if_neg h2] at hg
      exact ⟨id, _, hg, fun h3 => absurd h3 h1, fun h3 => absurd h3 h2, fun _ _ => ⟨rfl, hc⟩⟩

/-- C7, instances: the containers 'AIFF' and 'AIFC' and a container with
the form type 'WAVE'. -/
theorem getFORMChunk_form_type_witness :
    (∃ (id : Nat) (s' : State), getFORMChunk (openFile State.init 0 goodAIFF) = .ret id s' ∧
      s'.aiffIsCompressed = false ∧ s'.invalidFile = false) ∧
    (∃ (id : Nat) (s' : State), getFORMChunk (openFile State.init 0 oddAIFC) = .ret id s' ∧
      s'.aiffIsCompressed = true ∧ s'.invalidFile = false) ∧
    (∃ (id : Nat) (s' : State), getFORMChunk (openFile State.init 0 (formAIFF.take 8 ++ riffWave.drop 8))
      = .ret id s' ∧ s'.invalidFile = true ∧ s'.aiffIsCompressed = false) := by
  refine ⟨?_, ?_, ?_⟩
  · obtain ⟨id, s', h1, h2, _, _⟩ :=
      getFORMChunk_form_type (openFile State.init 0 goodAIFF) (by decide) (by decide)
    exact ⟨id, s', h1, h2 (by decide)⟩
  · obtain ⟨id, s', h1, _, h2, _⟩ :=
      getFORMChunk_form_type (openFile State.init 0 oddAIFC) (by decide) (by decide)
    exact ⟨id, s', h1, h2 (by decide)⟩
  · obtain ⟨id, s', h1, _, _, h2⟩ :=
      getFORMChunk_form_type (openFile State.init 0 (formAIFF.take 8 ++ riffWave.drop 8))
        (by decide) (by decide)
    exact ⟨id, s', h1, h2 (by decide) (by decide)⟩

/-! ## The dispatcher, tag by tag -/

theorem getChunkBody_full (s : State) (size : Nat) (h : s.pos + size ≤ s.file.length)
    (hfit : size ≤ maxChunkSize - sizeofChunkHeader) :
    getChunkBody s size = .ret (hostWord (bodyState s size).buf) (bodyState s size) := by
  have hl : (readAt s.file s.pos size).length = size := by
    rw [readAt_length]; omega
  unfold getChunkBody
  simp only [hl, ne_eq, not_true_eq_false, if_false, Nat.not_lt.mpr hfit]
  rfl

theorem getChunkBody_exit (s : State) (size : Nat) (hp : s.pos ≤ s.file.length)
    (h : ¬ (s.pos + size ≤ s.file.length ∧ size ≤ maxChunkSize - sizeofChunkHeader)) :
    ∃ s', getChunkBody s size = .exit s' ∧ s'.file = s.file ∧
      s'.invalidFile = s.invalidFile ∧ s'.counts = s.counts := by
  have hl := readAt_length s.file s.pos size
  unfold getChunkBody
  simp only []
  by_cases hk : maxChunkSize - sizeofChunkHeader < (readAt s.file s.pos size).length
  · rw [if_pos hk]
    exact ⟨_, rfl, rfl, rfl, rfl⟩
  · rw [if_neg hk, if_pos (by rw [hl] at hk ⊢; omega)]
    exact ⟨_, rfl, rfl, rfl, rfl⟩

@[simp] theorem bodyState_file (s : State) (n : Nat) : (bodyState s n).file = s.file := rfl
@[simp] theorem bodyState_pos (s : State) (n : Nat) : (bodyState s n).pos = s.pos + n := rfl
@[simp] theorem bodyState_foundEOF (s : State) (n : Nat) :
    (bodyState s n).foundEOF = s.foundEOF := rfl
@[simp] theorem bodyState_invalidFile (s : State) (n : Nat) :
    (bodyState s n).invalidFile = s.invalidFile := rfl
@[simp] theorem bodyState_counts (s : State) (n : Nat) : (bodyState s n).counts = s.counts := rfl
@[simp] theorem bodyState_calls (s : State) (n : Nat) : (bodyState s n).calls = s.calls := rfl
@[simp] theorem bodyState_out (s : State) (n : Nat) : (bodyState s n).out = s.out := rfl
@[simp] theorem bodyState_compressed (s : State) (n : Nat) :
    (bodyState s n).aiffIsCompressed = s.aiffIsCompressed := rfl

theorem headState_buf_length (s : State) (h : s.pos + 8 ≤ s.file.length) :
    8 ≤ (headState s).buf.length := by
  have hl : (readAt s.file s.pos 8).length = 8 := by
    rw [readAt_length]; omega
  show 8 ≤ (readAt s.file s.pos 8 ++ s.buf.drop 8).length
  rw [List.length_append, hl]
  omega

theorem hostWord_headState (s : State) (h : s.pos + 8 ≤ s.file.length) :
    hostWord (headState s).buf = hostWord (s.file.drop s.pos) := by
  have hl : (readAt s.file s.pos 8).length = 8 := by
    rw [readAt_length]; omega
  show hostWord (readAt s.file s.pos 8 ++ s.buf.drop 8) = _
  rw [hostWord_append _ _ (by omega), hostWord_readAt _ _ _ (by omega)]

theorem hostWord_take_eight (l : List Byte) : hostWord (l.take 8) = hostWord l := by
  unfold hostWord
  simp [List.getD_eq_getElem?_getD, List.getElem?_take]

theorem hostWord_store_eight (buf got : List Byte) (h : 8 ≤ buf.length) :
    hostWord (store buf 8 got) = hostWord buf := by
  rw [← hostWord_take_eight (store buf 8 got), take_store_eight _ _ h, hostWord_take_eight]

theorem tag_ne_zero (id tag : Nat) (h : CFSwapInt32 id = tag) (ht : tag ≠ 0) : id ≠ 0 := by
  intro h0
  rw [h0] at h
  exact ht (h.symm.trans (by decide))

theorem getChunks_FORM (s : State) (he : s.foundEOF = false) (h : s.pos + 8 ≤ s.file.length)
    (ht : tagAt s.file s.pos = FORMID) :
    getChunks s = .ret (hostWord (s.file.drop s.pos)) ((headState s).invalid .dupFORM) := by
  unfold getChunks
  rw [getChunks_head s h]
  simp only []
  unfold dispatch
  simp only [headState_foundEOF, he, tag_of_tagAt, ht]
  simp

theorem getChunks_COMM (s : State) (he : s.foundEOF = false) (h : s.pos + 8 ≤ s.file.length)
    (ht : tagAt s.file s.pos = CommonID)
    (hb : s.pos + 8 + padOddSize (sizeAt s.file s.pos) ≤ s.file.length)
    (hfit : padOddSize (sizeAt s.file s.pos) ≤ maxChunkSize - sizeofChunkHeader) :
    getChunks s = .ret (hostWord (s.file.drop s.pos))
      (bodyState ((headState s).count
          { s.counts with commChunkCount := incr s.counts.commChunkCount }
          (incr s.counts.commChunkCount) .dupCOMM) (padOddSize (sizeAt s.file s.pos))) := by
  unfold getChunks
  rw [getChunks_head s h]
  simp only []
  unfold dispatch
  simp only [headState_foundEOF, he, tag_of_tagAt, ht, count_ckSize, ckSize_headState s h,
    headState_counts]
  simp only [FORMID, CommonID, Bool.false_eq_true, if_false, if_true]
  rw [if_neg (by decide), getChunkBody_full _ _ (by simpa using hb) hfit]
  congr 1
  show hostWord (store _ 8 _) = _
  rw [hostWord_store_eight _ _ (by simpa using headState_buf_length s h), count_buf,
    hostWord_headState s h]

theorem getChunks_COMM_exit (s : State) (he : s.foundEOF = false)
    (h : s.pos + 8 ≤ s.file.length) (ht : tagAt s.file s.pos = CommonID)
    (hb : ¬ (s.pos + 8 + padOddSize (sizeAt s.file s.pos) ≤ s.file.length ∧
      padOddSize (sizeAt s.file s.pos) ≤ maxChunkSize - sizeofChunkHeader)) :
    ∃ s', getChunks s = .exit s' ∧ s'.file = s.file ∧
      s'.invalidFile = (if incr s.counts.commChunkCount > 1 then true else s.invalidFile) ∧
      s'.counts = { s.counts with commChunkCount := incr s.counts.commChunkCount } := by
  unfold getChunks
  rw [getChunks_head s h]
  simp only []
  unfold dispatch
  simp only [headState_foundEOF, he, tag_of_tagAt, ht, count_ckSize, ckSize_headState s h,
    headState_counts]
  simp only [FORMID, CommonID, Bool.false_eq_true, if_false, if_true]
  rw [if_neg (by decide)]
  obtain ⟨s', h1, h2, h3, h4⟩ := getChunkBody_exit ((headState s).count
          { s.counts with commChunkCount := incr s.counts.commChunkCount }
          (incr s.counts.commChunkCount) .dupCOMM) (padOddSize (sizeAt s.file s.pos))
          (by simp only [count_file, count_pos, headState_file, headState_pos]; omega)
          (by simpa only [count_file, count_pos, headState_file, headState_pos] using hb)
  refine ⟨s', h1, by simpa using h2, ?_, ?_⟩
  · rw [h3, count_invalidFile, headState_invalidFile]
  · rw [h4, count_counts]

theorem getChunks_FVER (s : State) (he : s.foundEOF = false) (h : s.pos + 8 ≤ s.file.length)
    (ht : tagAt s.file s.pos = FormatVersionID)
    (hb : s.pos + 8 + padOddSize (sizeAt s.file s.pos) ≤ s.file.length)
    (hfit : padOddSize (sizeAt s.file s.pos) ≤ maxChunkSize - sizeofChunkHeader) :
    ∃ s', getChunks s = .ret (hostWord (s.file.drop s.pos)) s' ∧
      s'.pos = s.pos + 8 + padOddSize (sizeAt s.file s.pos) ∧ s'.file = s.file ∧
      s'.counts = { s.counts with
        formatVersionChunkCount := incr s.counts.formatVersionChunkCount } ∧
      s'.invalidFile =
        (if incr s.counts.formatVersionChunkCount > 1 then true else s.invalidFile) ∧
      s'.foundEOF = false ∧ s'.calls = s.calls + 1 ∧ s'.out = s.out := by
  have hid : hostWord (bodyState ((headState s).count
      { s.counts with formatVersionChunkCount := incr s.counts.formatVersionChunkCount }
      (incr s.counts.formatVersionChunkCount) .dupFVER)
      (padOddSize (sizeAt s.file s.pos))).buf = hostWord (s.file.drop s.pos) := by
    show hostWord (store _ 8 _) = _
    rw [hostWord_store_eight _ _ (by simpa using headState_buf_length s h), count_buf,
      hostWord_headState s h]
  unfold getChunks
  rw [getChunks_head s h]
  simp only []
  unfold dispatch
  simp only [headState_foundEOF, he, tag_of_tagAt, ht, count_ckSize, ckSize_headState s h,
    headState_counts]
  simp only [FORMID, CommonID, FormatVersionID, Bool.false_eq_true, if_false, if_true]
  rw [if_neg (by decide), if_neg (by decide), getChunkBody_full _ _ (by simpa using hb) hfit]
  simp only [hid]
  refine ⟨_, rfl, ?_, ?_, ?_, ?_, ?_, ?_, ?_⟩ <;> simp [count_invalidFile, he]

theorem getChunks_FVER_exit (s : State) (he : s.foundEOF = false)
    (h : s.pos + 8 ≤ s.file.length) (ht : tagAt s.file s.pos = FormatVersionID)
    (hb : ¬ (s.pos + 8 + padOddSize (sizeAt s.file s.pos) ≤ s.file.length ∧
      padOddSize (sizeAt s.file s.pos) ≤ maxChunkSize - sizeofChunkHeader)) :
    ∃ s', getChunks s = .exit s' ∧ s'.file = s.file ∧
      s'.invalidFile =
        (if incr s.counts.formatVersionChunkCount > 1 then true else s.invalidFile) ∧
      s'.counts = { s.counts with
        formatVersionChunkCount := incr s.counts.formatVersionChunkCount } := by
  unfold getChunks
  rw [getChunks_head s h]
  simp only []
  unfold dispatch
  simp only [headState_foundEOF, he, tag_of_tagAt, ht, count_ckSize, ckSize_headState s h,
    headState_counts]
  simp only [FORMID, CommonID, FormatVersionID, Bool.false_eq_true, if_false, if_true]
  rw [if_neg (by decide), if_neg (by decide)]
  obtain ⟨s', h1, h2, h3, h4⟩ := getChunkBody_exit ((headState s).count
          { s.counts with formatVersionChunkCount := incr s.counts.formatVersionChunkCount }
          (incr s.counts.formatVersionChunkCount) .dupFVER) (padOddSize (sizeAt s.file s.pos))
          (by simp only [count_file, count_pos, headState_file, headState_pos]; omega)
          (by simpa only [count_file, count_pos, headState_file, headState_pos] using hb)
  rw [h1]
  refine ⟨s', rfl, by simpa using h2, ?_, ?_⟩
  · rw [h3, count_invalidFile, headState_invalidFile]
  · rw [h4, count_counts]

theorem getChunks_SSND (s : State) (he : s.foundEOF = false) (h : s.pos + 8 ≤ s.file.length)
    (ht : tagAt s.file s.pos = SoundDataID) :
    getChunks s = .ret (hostWord (s.file.drop s.pos))
      { (headState s).count
          { s.counts with soundDataChunkCount := incr s.counts.soundDataChunkCount }
          (incr s.counts.soundDataChunkCount) .dupSSND with
        pos := s.pos + 8 + padOddSize (sizeAt s.file s.pos) } := by
  unfold getChunks
  rw [getChunks_head s h]
  simp only []
  unfold dispatch
  simp only [headState_foundEOF, he, tag_of_tagAt, ht, skipChunk_eq, count_pos, count_ckSize,
    headState_pos, ckSize_headState s h, headState_counts]
  simp [FORMID, CommonID, FormatVersionID, SoundDataID, MarkerID, InstrumentID, MIDIDataID, AudioRecordingID, ApplicationSpecificID, CommentID, NameID, AuthorID, CopyrightID, AnnotationID]

theorem getChunks_MARK (s : State) (he : s.foundEOF = false) (h : s.pos + 8 ≤ s.file.length)
    (ht : tagAt s.file s.pos = MarkerID) :
    getChunks s = .ret (hostWord (s.file.drop s.pos))
      { (headState s).count
          { s.counts with markerChunkCount := incr s.counts.markerChunkCount }
          (incr s.counts.markerChunkCount) .dupMARK with
        pos := s.pos + 8 + padOddSize (sizeAt s.file s.pos) } := by
  unfold getChunks
  rw [getChunks_head s h]
  simp only []
  unfold dispatch
  simp only [headState_foundEOF, he, tag_of_tagAt, ht, skipChunk_eq, count_pos, count_ckSize,
    headState_pos, ckSize_headState s h, headState_counts]
  simp [FORMID, CommonID, FormatVersionID, SoundDataID, MarkerID, InstrumentID, MIDIDataID, AudioRecordingID, ApplicationSpecificID, CommentID, NameID, AuthorID, CopyrightID, AnnotationID]

theorem getChunks_INST (s : State) (he : s.foundEOF = false) (h : s.pos + 8 ≤ s.file.length)
    (ht : tagAt s.file s.pos = InstrumentID) :
    getChunks s = .ret (hostWord (s.file.drop s.pos))
      { (headState s).count
          { s.counts with instrumentChunkCount := incr s.counts.instrumentChunkCount }
          (incr s.counts.instrumentChunkCount) .dupINST with
        pos := s.pos + 8 + padOddSize (sizeAt s.file s.pos) } := by
  unfold getChunks
  rw [getChunks_head s h]
  simp only []
  unfold dispatch
  simp only [headState_foundEOF, he, tag_of_tagAt, ht, skipChunk_eq, count_pos, count_ckSize,
    headState_pos, ckSize_headState s h, headState_counts]
  simp [FORMID, CommonID, FormatVersionID, SoundDataID, MarkerID, InstrumentID, MIDIDataID, AudioRecordingID, ApplicationSpecificID, CommentID, NameID, AuthorID, CopyrightID, AnnotationID]

theorem getChunks_MIDI (s : State) (he : s.foundEOF = false) (h : s.pos + 8 ≤ s.file.length)
    (ht : tagAt s.file s.pos = MIDIDataID) :
    getChunks s = .ret (hostWord (s.file.drop s.pos))
      { (headState s).count
          { s.counts with midiDataChunkCount := incr s.counts.midiDataChunkCount }
          (incr s.counts.midiDataChunkCount) .dupMIDI with
        pos := s.pos + 8 + padOddSize (sizeAt s.file s.pos) } := by
  unfold getChunks
  rw [getChunks_head s h]
  simp only []
  unfold dispatch
  simp only [headState_foundEOF, he, tag_of_tagAt, ht, skipChunk_eq, count_pos, count_ckSize,
    headState_pos, ckSize_headState s h, headState_counts]
  simp [FORMID, CommonID, FormatVersionID, SoundDataID, MarkerID, InstrumentID, MIDIDataID, AudioRecordingID, ApplicationSpecificID, CommentID, NameID, AuthorID, CopyrightID, AnnotationID]

theorem getChunks_AESD (s : State) (he : s.foundEOF = false) (h : s.pos + 8 ≤ s.file.length)
    (ht : tagAt s.file s.pos = AudioRecordingID) :
    getChunks s = .ret (hostWord (s.file.drop s.pos))
      { (headState s).count
          { s.counts with audioRecordingChunkCount := incr s.counts.audioRecordingChunkCount }
          (incr s.counts.audioRecordingChunkCount) .dupAESD with
        pos := s.pos + 8 + padOddSize (sizeAt s.file s.pos) } := by
  unfold getChunks
  rw [getChunks_head s h]
  simp only []
  unfold dispatch
  simp only [headState_foundEOF, he, tag_of_tagAt, ht, skipChunk_eq, count_pos, count_ckSize,
    headState_pos, ckSize_headState s h, headState_counts]
  simp [FORMID, CommonID, FormatVersionID, SoundDataID, MarkerID, InstrumentID, MIDIDataID, AudioRecordingID, ApplicationSpecificID, CommentID, NameID, AuthorID, CopyrightID, AnnotationID]

theorem getChunks_COMT (s : State) (he : s.foundEOF = false) (h : s.pos + 8 ≤ s.file.length)
    (ht : tagAt s.file s.pos = CommentID) :
    getChunks s = .ret (hostWord (s.file.drop s.pos))
      { (headState s).count
          { s.counts with commentChunkCount := incr s.counts.commentChunkCount }
          (incr s.counts.commentChunkCount) .dupCOMT with
        pos := s.pos + 8 + padOddSize (sizeAt s.file s.pos) } := by
  unfold getChunks
  rw [getChunks_head s h]
  simp only []
  unfold dispatch
  simp only [headState_foundEOF, he, tag_of_tagAt, ht, skipChunk_eq, count_pos, count_ckSize,
    headState_pos, ckSize_headState s h, headState_counts]
  simp [FORMID, CommonID, FormatVersionID, SoundDataID, MarkerID, InstrumentID, MIDIDataID, AudioRecordingID, ApplicationSpecificID, CommentID, NameID, AuthorID, CopyrightID, AnnotationID]

theorem getChunks_NAME (s : State) (he : s.foundEOF = false) (h : s.pos + 8 ≤ s.file.length)
    (ht : tagAt s.file s.pos = NameID) :
    getChunks s = .ret (hostWord (s.file.drop s.pos))
      { (headState s).count
          { s.counts with nameChunkCount := incr s.counts.nameChunkCount }
          (incr s.counts.nameChunkCount) .dupNAME with
        pos := s.pos + 8 + padOddSize (sizeAt s.file s.pos) } := by
  unfold getChunks
  rw [getChunks_head s h]
  simp only []
  unfold dispatch
  simp only [headState_foundEOF, he, tag_of_tagAt, ht, skipChunk_eq, count_pos, count_ckSize,
    headState_pos, ckSize_headState s h, headState_counts]
  simp [FORMID, CommonID, FormatVersionID, SoundDataID, MarkerID, InstrumentID, MIDIDataID, AudioRecordingID, ApplicationSpecificID, CommentID, NameID, AuthorID, CopyrightID, AnnotationID]

theorem getChunks_AUTH (s : State) (he : s.foundEOF = false) (h : s.pos + 8 ≤ s.file.length)
    (ht : tagAt s.file s.pos = AuthorID) :
    getChunks s = .ret (hostWord (s.file.drop s.pos))
      { (headState s).count
          { s.counts with authorChunkCount := incr s.counts.authorChunkCount }
          (incr s.counts.authorChunkCount) .dupAUTH with
        pos := s.pos + 8 + padOddSize (sizeAt s.file s.pos) } := by
  unfold getChunks
  rw [getChunks_head s h]
  simp only []
  unfold dispatch
  simp only [headState_foundEOF, he, tag_of_tagAt, ht, skipChunk_eq, count_pos, count_ckSize,
    headState_pos, ckSize_headState s h, headState_counts]
  simp [FORMID, CommonID, FormatVersionID, SoundDataID, MarkerID, InstrumentID, MIDIDataID, AudioRecordingID, ApplicationSpecificID, CommentID, NameID, AuthorID, CopyrightID, AnnotationID]

theorem getChunks_Copyright (s : State) (he : s.foundEOF = false) (h : s.pos + 8 ≤ s.file.length)
    (ht : tagAt s.file s.pos = CopyrightID) :
    getChunks s = .ret (hostWord (s.file.drop s.pos))
      { (headState s).count
          { s.counts with copyrightChunkCount := incr s.counts.copyrightChunkCount }
          (incr s.counts.copyrightChunkCount) .dupCopyright with
        pos := s.pos + 8 + padOddSize (sizeAt s.file s.pos) } := by
  unfold getChunks
  rw [getChunks_head s h]
  simp only []
  unfold dispatch
  simp only [headState_foundEOF, he, tag_of_tagAt, ht, skipChunk_eq, count_pos, count_ckSize,
    headState_pos, ckSize_headState s h, headState_counts]
  simp [FORMID, CommonID, FormatVersionID, SoundDataID, MarkerID, InstrumentID, MIDIDataID, AudioRecordingID, ApplicationSpecificID, CommentID, NameID, AuthorID, CopyrightID, AnnotationID]

theorem getChunks_APPL (s : State) (he : s.foundEOF = false) (h : s.pos + 8 ≤ s.file.length)
    (ht : tagAt s.file s.pos = ApplicationSpecificID) :
    getChunks s = .ret (hostWord (s.file.drop s.pos))
      { headState s with pos := s.pos + 8 + padOddSize (sizeAt s.file s.pos) } := by
  unfold getChunks
  rw [getChunks_head s h]
  simp only []
  unfold dispatch
  simp only [headState_foundEOF, he, tag_of_tagAt, ht, skipChunk_eq, count_pos, count_ckSize,
    headState_pos, ckSize_headState s h, headState_counts]
  simp [FORMID, CommonID, FormatVersionID, SoundDataID, MarkerID, InstrumentID, MIDIDataID, AudioRecordingID, ApplicationSpecificID, CommentID, NameID, AuthorID, CopyrightID, AnnotationID]

theorem getChunks_ANNO (s : State) (he : s.foundEOF = false) (h : s.pos + 8 ≤ s.file.length)
    (ht : tagAt s.file s.pos = AnnotationID) :
    getChunks s = .ret (hostWord (s.file.drop s.pos))
      { headState s with pos := s.pos + 8 + padOddSize (sizeAt s.file s.pos) } := by
  unfold getChunks
  rw [getChunks_head s h]
  simp only []
  unfold dispatch
  simp only [headState_foundEOF, he, tag_of_tagAt, ht, skipChunk_eq, count_pos, count_ckSize,
    headState_pos, ckSize_headState s h, headState_counts]
  simp [FORMID, CommonID, FormatVersionID, SoundDataID, MarkerID, InstrumentID, MIDIDataID, AudioRecordingID, ApplicationSpecificID, CommentID, NameID, AuthorID, CopyrightID, AnnotationID]

/-! ## Position after a chunk -/

theorem getChunks_local (s : State) (t : Nat) (ht : t ∈ localTags) (he : s.foundEOF = false)
    (h : s.pos + 8 ≤ s.file.length) (htag : tagAt s.file s.pos = t)
    (hb : readIntoMemory t →
      s.pos + 8 + padOddSize (sizeAt s.file s.pos) ≤ s.file.length ∧
      padOddSize (sizeAt s.file s.pos) ≤ maxChunkSize - sizeofChunkHeader) :
    ∃ (s' : State), getChunks s = .ret (hostWord (s.file.drop s.pos)) s' ∧ s'.file = s.file ∧
      s'.pos = s.pos + 8 + padOddSize (sizeAt s.file s.pos) ∧ s'.foundEOF = false ∧
      s'.calls = s.calls + 1 ∧ s'.out = s.out := by
  simp only [localTags, List.mem_cons, List.mem_singleton, List.mem_nil_iff, or_false] at ht
  rcases ht with rfl | rfl | rfl | rfl | rfl | rfl | rfl | rfl | rfl | rfl | rfl | rfl | rfl
  · refine ⟨_, getChunks_COMM s he h htag (hb (Or.inl rfl)).1 (hb (Or.inl rfl)).2,
      ?_, ?_, ?_, ?_, ?_⟩ <;> simp [he, Nat.add_assoc]
  · obtain ⟨s', h1, h2, h3, _, _, h4, h5, h6⟩ :=
      getChunks_FVER s he h htag (hb (Or.inr rfl)).1 (hb (Or.inr rfl)).2
    exact ⟨s', h1, h3, h2, h4, h5, h6⟩
  · refine ⟨_, getChunks_SSND s he h htag, ?_, ?_, ?_, ?_, ?_⟩ <;> simp [he]
  · refine ⟨_, getChunks_MARK s he h htag, ?_, ?_, ?_, ?_, ?_⟩ <;> simp [he]
  · refine ⟨_, getChunks_INST s he h htag, ?_, ?_, ?_, ?_, ?_⟩ <;> simp [he]
  · refine ⟨_, getChunks_MIDI s he h htag, ?_, ?_, ?_, ?_, ?_⟩ <;> simp [he]
  · refine ⟨_, getChunks_AESD s he h htag, ?_, ?_, ?_, ?_, ?_⟩ <;> simp [he]
  · refine ⟨_, getChunks_APPL s he h htag, ?_, ?_, ?_, ?_, ?_⟩ <;> simp [he]
  · refine ⟨_, getChunks_COMT s he h htag, ?_, ?_, ?_, ?_, ?_⟩ <;> simp [he]
  · refine ⟨_, getChunks_NAME s he h htag, ?_, ?_, ?_, ?_, ?_⟩ <;> simp [he]
  · refine ⟨_, getChunks_AUTH s he h htag, ?_, ?_, ?_, ?_, ?_⟩ <;> simp [he]
  · refine ⟨_, getChunks_Copyright s he h htag, ?_, ?_, ?_, ?_, ?_⟩ <;> simp [he]
  · refine ⟨_, getChunks_ANNO s he h htag, ?_, ?_, ?_, ?_, ?_⟩ <;> simp [he]

/-- A body that is read into the buffer and is not whole in the file, or
does not fit the buffer, has no return. -/
theorem getChunks_local_exit (s : State) (t : Nat) (he : s.foundEOF = false)
    (h : s.pos + 8 ≤ s.file.length) (htag : tagAt s.file s.pos = t)
    (hb : ¬ (readIntoMemory t →
      s.pos + 8 + padOddSize (sizeAt s.file s.pos) ≤ s.file.length ∧
      padOddSize (sizeAt s.file s.pos) ≤ maxChunkSize - sizeofChunkHeader)) :
    ∃ (s' : State), getChunks s = .exit s' ∧ s'.file = s.file := by
  have hm : readIntoMemory t := by
    by_contra hm
    exact hb (fun x => absurd x hm)
  have hn : ¬ (s.pos + 8 + padOddSize (sizeAt s.file s.pos) ≤ s.file.length ∧
      padOddSize (sizeAt s.file s.pos) ≤ maxChunkSize - sizeofChunkHeader) :=
    fun x => hb (fun _ => x)
  rcases hm with rfl | rfl
  · obtain ⟨s', h1, h2, _⟩ := getChunks_COMM_exit s he h htag hn
    exact ⟨s', h1, h2⟩
  · obtain ⟨s', h1, h2, _⟩ := getChunks_FVER_exit s he h htag hn
    exact ⟨s', h1, h2⟩

theorem localTags_ne_zero (t : Nat) (ht : t ∈ localTags) : t ≠ 0 := by
  simp only [localTags, List.mem_cons, List.mem_singleton, List.mem_nil_iff, or_false] at ht
  rcases ht with rfl | rfl | rfl | rfl | rfl | rfl | rfl | rfl | rfl | rfl | rfl | rfl | rfl <;>
    decide

/-- C5: for a recognized chunk other than the container, with its header at
offset `p` and the declared body size `n` (big-endian), every return of
`getChunks` has a non-zero id and the offset at `p + 8 + n` for even `n` and
at `p + 8 + n + 1` for odd `n`, both when the body is read into the buffer
(COMM, FVER) and when it is skipped by a seek; the file is not changed, and
the next header read takes its eight bytes from that offset.  `getChunks`
does return for every skipped chunk, and for COMM and FVER when the padded
body is in the file and fits the chunk buffer behind the header (at most
`maxChunkSize` - 8 = 279 bytes); for a COMM or FVER body that is cut short
(the program exits) or overruns the buffer (the run is followed no further)
it does not return, the file unchanged up to there. -/
theorem getChunks_position (s : State) (t : Nat) (ht : t ∈ localTags) (he : s.foundEOF = false)
    (h : s.pos + 8 ≤ s.file.length) (htag : tagAt s.file s.pos = t) :
    ((readIntoMemory t →
        s.pos + 8 + padOddSize (sizeAt s.file s.pos) ≤ s.file.length ∧
        padOddSize (sizeAt s.file s.pos) ≤ maxChunkSize - sizeofChunkHeader) →
      ∃ (id : Nat) (s' : State), getChunks s = .ret id s') ∧
    (¬ (readIntoMemory t →
        s.pos + 8 + padOddSize (sizeAt s.file s.pos) ≤ s.file.length ∧
        padOddSize (sizeAt s.file s.pos) ≤ maxChunkSize - sizeofChunkHeader) →
      ∃ (s' : State), getChunks s = .exit s' ∧ s'.file = s.file) ∧
    (∀ (id : Nat) (s' : State), getChunks s = .ret id s' → id ≠ 0 ∧ s'.file = s.file ∧
      (sizeAt s.file s.pos % 2 = 0 → s'.pos = s.pos + 8 + sizeAt s.file s.pos) ∧
      (sizeAt s.file s.pos % 2 = 1 → s'.pos = s.pos + 8 + sizeAt s.file s.pos + 1) ∧
      (s'.pos + 8 ≤ s'.file.length →
        ∃ (id2 : Nat) (s2 : State), getChunkHead s' = .ret id2 s2 ∧
          CFSwapInt32 id2 = tagAt s.file s'.pos ∧ s2.pos = s'.pos + 8)) := by
  refine ⟨fun hb => ?_, fun hb => getChunks_local_exit s t he h htag hb, fun id s' hr => ?_⟩
  · obtain ⟨s', h1, _⟩ := getChunks_local s t ht he h htag hb
    exact ⟨_, s', h1⟩
  · by_cases hb : (readIntoMemory t →
        s.pos + 8 + padOddSize (sizeAt s.file s.pos) ≤ s.file.length ∧
        padOddSize (sizeAt s.file s.pos) ≤ maxChunkSize - sizeofChunkHeader)
    · obtain ⟨s1, h1, h2, h3, _, _, _⟩ := getChunks_local s t ht he h htag hb
      rw [h1] at hr
      injection hr with hid hs
      subst hid hs
      refine ⟨?_, h2, ?_, ?_, ?_⟩
      · exact tag_ne_zero _ _ ((tag_of_tagAt _ _).trans htag) (localTags_ne_zero t ht)
      · intro hn
        rw [h3, padOddSize_even _ hn]
      · intro hn
        rw [h3, padOddSize_odd _ hn]
        omega
      · intro hn
        refine ⟨_, _, getChunkHead_header s1 hn, ?_, rfl⟩
        rw [tag_of_tagAt, h2]
    · obtain ⟨s1, h1, _⟩ := getChunks_local_exit s t he h htag hb
      rw [h1] at hr
      cases hr

/-- C5, instances: in the compressed example file the common chunk of the
odd size 23 at offset 24 is read into the buffer and leaves the offset at
24 + 8 + 24 = 56, where the next header is that of the sound data chunk; a
sound data chunk of the odd size 9 at offset 0 is skipped to offset 18; a
common chunk of size 280, one byte more than the buffer holds, has no
return. -/
theorem getChunks_position_witness :
    (∃ (id : Nat) (s' : State),
      getChunks { State.init with file := oddAIFC, pos := 24 } = .ret id s' ∧ id ≠ 0 ∧
        s'.pos = 56 ∧
        ∃ (id2 : Nat) (s2 : State), getChunkHead s' = .ret id2 s2 ∧
          CFSwapInt32 id2 = SoundDataID) ∧
    (∃ (id : Nat) (s' : State),
      getChunks { State.init with file := ssndOdd } = .ret id s' ∧ id ≠ 0 ∧ s'.pos = 18) ∧
    (∃ (s' : State),
      getChunks { State.init with file := comm280 } = .exit s' ∧ s'.file = comm280) := by
  refine ⟨?_, ?_, ?_⟩
  · have hc := getChunks_position { State.init with file := oddAIFC, pos := 24 } CommonID
      (by decide) rfl (by decide) (by decide)
    obtain ⟨id, s', h1⟩ := hc.1 (fun _ => ⟨by decide, by decide⟩)
    obtain ⟨h2, h3, _, h4, h5⟩ := hc.2.2 id s' h1
    have hp : s'.pos = 56 := h4 (by decide)
    obtain ⟨id2, s2, h6, h7, _⟩ := h5 (by rw [hp, h3]; decide)
    exact ⟨id, s', h1, h2, hp, id2, s2, h6, h7.trans (by rw [hp]; decide)⟩
  · have hc := getChunks_position { State.init with file := ssndOdd } SoundDataID
      (by decide) rfl (by decide) (by decide)
    obtain ⟨id, s', h1⟩ := hc.1 (fun hm => by
      rcases hm with hm | hm <;> exact absurd hm (by decide))
    obtain ⟨h2, _, _, h4, _⟩ := hc.2.2 id s' h1
    exact ⟨id, s', h1, h2, h4 (by decide)⟩
  · exact (getChunks_position { State.init with file := comm280 } CommonID
      (by decide) rfl (by
        show 0 + 8 ≤ comm280.length
        rw [comm280, List.length_append, List.length_replicate]
        decide) (by decide)).2.1
        (fun hb => absurd (hb (Or.inl rfl)).2 (by decide))

/-! ## The counters of the chunk types limited to one occurrence -/

theorem incr_of_lt (c : Nat) (h : c + 1 < 2 ^ 32) : incr c = c + 1 :=
  Nat.mod_eq_of_lt h

theorem getChunks_single (k : Single) (s : State) (he : s.foundEOF = false)
    (h : s.pos + 8 ≤ s.file.length) (htag : tagAt s.file s.pos = k.tag)
    (hb : readIntoMemory k.tag →
      s.pos + 8 + padOddSize (sizeAt s.file s.pos) ≤ s.file.length ∧
      padOddSize (sizeAt s.file s.pos) ≤ maxChunkSize - sizeofChunkHeader) :
    ∃ (s' : State), getChunks s = .ret (hostWord (s.file.drop s.pos)) s' ∧
      s'.counts = k.set s.counts (incr (k.get s.counts)) ∧
      s'.pos = s.pos + 8 + padOddSize (sizeAt s.file s.pos) ∧
      s'.invalidFile = (if incr (k.get s.counts) > 1 then true else s.invalidFile) := by
  cases k
  case comm =>
    refine ⟨_, getChunks_COMM s he h htag (hb (Or.inl rfl)).1 (hb (Or.inl rfl)).2,
      ?_, ?_, ?_⟩ <;>
      simp [Single.get, Single.set, count_invalidFile, Nat.add_assoc]
  case fver =>
    obtain ⟨s', h1, h2, _, h3, h4, _⟩ :=
      getChunks_FVER s he h htag (hb (Or.inr rfl)).1 (hb (Or.inr rfl)).2
    exact ⟨s', h1, h3, h2, h4⟩
  case ssnd =>
    refine ⟨_, getChunks_SSND s he h htag, ?_, ?_, ?_⟩ <;>
      simp [Single.get, Single.set, count_invalidFile]
  case mark =>
    refine ⟨_, getChunks_MARK s he h htag, ?_, ?_, ?_⟩ <;>
      simp [Single.get, Single.set, count_invalidFile]
  case inst =>
    refine ⟨_, getChunks_INST s he h htag, ?_, ?_, ?_⟩ <;>
      simp [Single.get, Single.set, count_invalidFile]
  case aesd =>
    refine ⟨_, getChunks_AESD s he h htag, ?_, ?_, ?_⟩ <;>
      simp [Single.get, Single.set, count_invalidFile]
  case comt =>
    refine ⟨_, getChunks_COMT s he h htag, ?_, ?_, ?_⟩ <;>
      simp [Single.get, Single.set, count_invalidFile]
  case name =>
    refine ⟨_, getChunks_NAME s he h htag, ?_, ?_, ?_⟩ <;>
      simp [Single.get, Single.set, count_invalidFile]
  case auth =>
    refine ⟨_, getChunks_AUTH s he h htag, ?_, ?_, ?_⟩ <;>
      simp [Single.get, Single.set, count_invalidFile]
  case copyright =>
    refine ⟨_, getChunks_Copyright s he h htag, ?_, ?_, ?_⟩ <;>
      simp [Single.get, Single.set, count_invalidFile]

/-- The counter is incremented before the body is read: a run that is not
followed past the read of a COMM or FVER body has counted the chunk. -/
theorem getChunks_single_exit (k : Single) (s : State) (he : s.foundEOF = false)
    (h : s.pos + 8 ≤ s.file.length) (htag : tagAt s.file s.pos = k.tag)
    (hb : ¬ (readIntoMemory k.tag →
      s.pos + 8 + padOddSize (sizeAt s.file s.pos) ≤ s.file.length ∧
      padOddSize (sizeAt s.file s.pos) ≤ maxChunkSize - sizeofChunkHeader)) :
    ∃ (s' : State), getChunks s = .exit s' ∧
      s'.counts = k.set s.counts (incr (k.get s.counts)) ∧
      s'.invalidFile = (if incr (k.get s.counts) > 1 then true else s.invalidFile) := by
  have hm : readIntoMemory k.tag := by
    by_contra hm
    exact hb (fun x => absurd x hm)
  have hn : ¬ (s.pos + 8 + padOddSize (sizeAt s.file s.pos) ≤ s.file.length ∧
      padOddSize (sizeAt s.file s.pos) ≤ maxChunkSize - sizeofChunkHeader) :=
    fun x => hb (fun _ => x)
  cases k
  case comm =>
    obtain ⟨s', h1, _, h3, h4⟩ := getChunks_COMM_exit s he h htag hn
    exact ⟨s', h1, h4, h3⟩
  case fver =>
    obtain ⟨s', h1, _, h3, h4⟩ := getChunks_FVER_exit s he h htag hn
    exact ⟨s', h1, h4, h3⟩
  all_goals
    rcases hm with hm | hm <;> exact absurd hm (by decide)

theorem single_get_set (k : Single) (c : Counts) (n : Nat) : k.get (k.set c n) = n := by
  cases k <;> rfl

theorem single_tag_ne_zero (k : Single) : k.tag ≠ 0 := by
  cases k <;> decide

/-- C10: for each chunk type limited to one occurrence, `getChunks` on a
chunk of that type replaces the type's counter by its increment as `++`
computes it on an `unsigned int`, which is the counter plus one below 2^32,
and leaves the other counters as they were; if the incremented counter
exceeds one, `invalidFile` is set, and if it is exactly one, `invalidFile`
keeps its value.  This holds of the state `getChunks` ends in, whether it
returns or not.  It returns, with a non-zero id and the offset past the
padded body, for the eight types it skips, and for COMM and FVER when the
padded body is in the file and fits the chunk buffer behind the header (at
most `maxChunkSize` - 8 = 279 bytes); otherwise the run goes no further
than the read of the body: the program exits on a body cut short, and a
body that overruns the buffer leaves its behaviour undefined. -/
theorem getChunks_singleton_count (k : Single) (s : State) (he : s.foundEOF = false)
    (h : s.pos + 8 ≤ s.file.length) (htag : tagAt s.file s.pos = k.tag) :
    (getChunks s).state.counts = k.set s.counts (incr (k.get s.counts)) ∧
    (k.get s.counts + 1 < 2 ^ 32 →
      k.get (getChunks s).state.counts = k.get s.counts + 1) ∧
    (incr (k.get s.counts) > 1 → (getChunks s).state.invalidFile = true) ∧
    (incr (k.get s.counts) = 1 → (getChunks s).state.invalidFile = s.invalidFile) ∧
    ((readIntoMemory k.tag →
        s.pos + 8 + padOddSize (sizeAt s.file s.pos) ≤ s.file.length ∧
        padOddSize (sizeAt s.file s.pos) ≤ maxChunkSize - sizeofChunkHeader) →
      ∃ (id : Nat) (s' : State), getChunks s = .ret id s' ∧ id ≠ 0 ∧
        s'.pos = s.pos + 8 + padOddSize (sizeAt s.file s.pos)) ∧
    (¬ (readIntoMemory k.tag →
        s.pos + 8 + padOddSize (sizeAt s.file s.pos) ≤ s.file.length ∧
        padOddSize (sizeAt s.file s.pos) ≤ maxChunkSize - sizeofChunkHeader) →
      ∃ (s' : State), getChunks s = .exit s') := by
  have key : ∃ s' : State, (getChunks s).state = s' ∧
      s'.counts = k.set s.counts (incr (k.get s.counts)) ∧
      s'.invalidFile = (if incr (k.get s.counts) > 1 then true else s.invalidFile) := by
    by_cases hb : (readIntoMemory k.tag →
        s.pos + 8 + padOddSize (sizeAt s.file s.pos) ≤ s.file.length ∧
        padOddSize (sizeAt s.file s.pos) ≤ maxChunkSize - sizeofChunkHeader)
    · obtain ⟨s', h1, h2, _, h4⟩ := getChunks_single k s he h htag hb
      exact ⟨s', by rw [h1]; rfl, h2, h4⟩
    · obtain ⟨s', h1, h2, h4⟩ := getChunks_single_exit k s he h htag hb
      exact ⟨s', by rw [h1]; rfl, h2, h4⟩
  obtain ⟨s', hst, h2, h4⟩ := key
  rw [hst]
  refine ⟨h2, ?_, ?_, ?_, ?_, ?_⟩
  · intro hlt
    rw [h2, single_get_set, incr_of_lt _ hlt]
  · intro hgt
    rw [h4, if_pos hgt]
  · intro h1
    rw [h4, if_neg (by omega)]
  · intro hb
    obtain ⟨s1, h1, _, h3, _⟩ := getChunks_single k s he h htag hb
    exact ⟨_, s1, h1,
      tag_ne_zero _ _ ((tag_of_tagAt _ _).trans htag) (single_tag_ne_zero k), h3⟩
  · intro hb
    obtain ⟨s1, h1, _⟩ := getChunks_single_exit k s he h htag hb
    exact ⟨s1, h1⟩

/-- C10, instances: a first sound data chunk (counter 0 to 1, `invalidFile`
kept, offset past the padded body), a second common chunk (counter 1 to 2,
`invalidFile` set, offset past the body), and a first common chunk of size
280, which is counted before the read of its body overruns the buffer. -/
theorem getChunks_singleton_count_witness :
    ((getChunks { State.init with file := ssndOdd }).state.counts
        = { Counts.zero with soundDataChunkCount := 1 } ∧
      (getChunks { State.init with file := ssndOdd }).state.invalidFile = false ∧
      ∃ (id : Nat) (s' : State),
        getChunks { State.init with file := ssndOdd } = .ret id s' ∧ s'.pos = 18) ∧
    ((getChunks { State.init with
          file := comm18, counts := { Counts.zero with commChunkCount := 1 } }).state.counts
        = { Counts.zero with commChunkCount := 2 } ∧
      (getChunks { State.init with
          file := comm18
          counts := { Counts.zero with commChunkCount := 1 } }).state.invalidFile = true ∧
      ∃ (id : Nat) (s' : State),
        getChunks { State.init with
          file := comm18, counts := { Counts.zero with commChunkCount := 1 } } = .ret id s' ∧
          s'.pos = 26) ∧
    ((getChunks { State.init with file := comm280 }).state.counts
        = { Counts.zero with commChunkCount := 1 } ∧
      ∃ (s' : State), getChunks { State.init with file := comm280 } = .exit s') := by
  refine ⟨?_, ?_, ?_⟩
  · have hc := getChunks_singleton_count .ssnd { State.init with file := ssndOdd } rfl
      (by decide) (by decide)
    obtain ⟨id, s', h1, _, h3⟩ := hc.2.2.2.2.1 (fun hm => by
      rcases hm with hm | hm <;> exact absurd hm (by decide))
    exact ⟨hc.1.trans (by decide), hc.2.2.2.1 (by decide), id, s', h1, h3.trans (by decide)⟩
  · have hc := getChunks_singleton_count .comm
      { State.init with file := comm18, counts := { Counts.zero with commChunkCount := 1 } }
      rfl (by decide) (by decide)
    obtain ⟨id, s', h1, _, h3⟩ := hc.2.2.2.2.1 (fun _ => ⟨by decide, by decide⟩)
    exact ⟨hc.1.trans (by decide), hc.2.2.1 (by decide), id, s', h1, h3.trans (by decide)⟩
  · have hc := getChunks_singleton_count .comm { State.init with file := comm280 } rfl
      (by
        show 0 + 8 ≤ comm280.length
        rw [comm280, List.length_append, List.length_replicate]
        decide) (by decide)
    exact ⟨hc.1.trans (by decide),
      hc.2.2.2.2.2 (fun hb => absurd (hb (Or.inl rfl)).2 (by decide))⟩

/-! ## What every call of the readers preserves -/

theorem Keeps.trans {a b c : State} (h1 : Keeps a b) (h2 : Keeps b c) : Keeps a c :=
  ⟨h2.fileName.trans h1.fileName, fun h => h2.invalid (h1.invalid h),
    h2.compressed.trans h1.compressed⟩

theorem Keeps.foundEOF (a : State) : Keeps a { a with foundEOF := true } :=
  ⟨rfl, fun h => h, rfl⟩

theorem getChunkHead_file (s : State) : (getChunkHead s).state.file = s.file := by
  unfold getChunkHead
  simp only []
  split_ifs <;> simp [Outcome.state]

theorem getChunkBody_file (s : State) (n : Nat) : (getChunkBody s n).state.file = s.file := by
  unfold getChunkBody
  simp only []
  split_ifs <;> simp [Outcome.state]

theorem skipChunk_file (s : State) (id : Nat) : (skipChunk s id).state.file = s.file := by
  rw [skipChunk_eq]
  rfl

theorem fverBody_file (s : State) (n : Nat) :
    (match getChunkBody s n with
      | .exit s3 => Outcome.exit s3
      | .ret id3 s3 =>
        .ret id3
          (s3.reportIf (CFSwapInt32 (hostWord (s3.buf.drop 8)) ≠ AIFCVersion1)
            .fverTimestamp)).state.file = s.file := by
  have h2 := getChunkBody_file s n
  cases hb : getChunkBody s n with
  | exit s3 =>
    rw [hb] at h2
    exact h2
  | ret id3 s3 =>
    rw [hb] at h2
    simpa [Outcome.state] using h2

theorem dispatch_file (id : Nat) (s1 : State) : (dispatch id s1).state.file = s1.file := by
  unfold dispatch
  by_cases h0 : s1.foundEOF = true
  · rw [if_pos h0]
    exact rfl
  rw [if_neg h0]
  by_cases h1 : CFSwapInt32 id = FORMID
  · rw [if_pos h1]
    exact rfl
  rw [if_neg h1]
  by_cases h2 : CFSwapInt32 id = CommonID
  · rw [if_pos h2]
    exact (getChunkBody_file _ _).trans (count_file _ _ _ _)
  rw [if_neg h2]
  by_cases h3 : CFSwapInt32 id = FormatVersionID
  · rw [if_pos h3]
    exact (fverBody_file _ _).trans (count_file _ _ _ _)
  rw [if_neg h3]
  by_cases h4 : CFSwapInt32 id = SoundDataID
  · rw [if_pos h4]
    exact (skipChunk_file _ _).trans (count_file _ _ _ _)
  rw [if_neg h4]
  by_cases h5 : CFSwapInt32 id = MarkerID
  · rw [if_pos h5]
    exact (skipChunk_file _ _).trans (count_file _ _ _ _)
  rw [if_neg h5]
  by_cases h6 : CFSwapInt32 id = InstrumentID
  · rw [if_pos h6]
    exact (skipChunk_file _ _).trans (count_file _ _ _ _)
  rw [if_neg h6]
  by_cases h7 : CFSwapInt32 id = MIDIDataID
  · rw [if_pos h7]
    exact (skipChunk_file _ _).trans (count_file _ _ _ _)
  rw [if_neg h7]
  by_cases h8 : CFSwapInt32 id = AudioRecordingID
  · rw [if_pos h8]
    exact (skipChunk_file _ _).trans (count_file _ _ _ _)
  rw [if_neg h8]
  by_cases h9 : CFSwapInt32 id = ApplicationSpecificID
  · rw [if_pos h9]
    exact skipChunk_file _ _
  rw [if_neg h9]
  by_cases h10 : CFSwapInt32 id = CommentID
  · rw [if_pos h10]
    exact (skipChunk_file _ _).trans (count_file _ _ _ _)
  rw [if_neg h10]
  by_cases h11 : CFSwapInt32 id = NameID
  · rw [if_pos h11]
    exact (skipChunk_file _ _).trans (count_file _ _ _ _)
  rw [if_neg h11]
  by_cases h12 : CFSwapInt32 id = AuthorID
  · rw [if_pos h12]
    exact (skipChunk_file _ _).trans (count_file _ _ _ _)
  rw [if_neg h12]
  by_cases h13 : CFSwapInt32 id = CopyrightID
  · rw [if_pos h13]
    exact (skipChunk_file _ _).trans (count_file _ _ _ _)
  rw [if_neg h13]
  by_cases h14 : CFSwapInt32 id = AnnotationID
  · rw [if_pos h14]
    exact skipChunk_file _ _
  rw [if_neg h14]
  exact rfl

theorem getChunks_file (s : State) : (getChunks s).state.file = s.file := by
  have h := getChunkHead_file { s with calls := s.calls + 1 }
  unfold getChunks
  cases hr : getChunkHead { s with calls := s.calls + 1 } with
  | exit s1 =>
    rw [hr] at h
    exact h
  | ret id s1 =>
    rw [hr] at h
    exact (dispatch_file id s1).trans h

theorem getFORMChunk_file (s : State) : (getFORMChunk s).state.file = s.file := by
  unfold getFORMChunk
  simp only []
  split_ifs <;> simp [Outcome.state]

/-! ## The block for the common chunk -/

theorem ckSize_lt (s : State) : s.ckSize < 2 ^ 32 :=
  CFSwapInt32_lt _

theorem backupWrapped_eq (n : Nat) (h : n < 2 ^ 32) :
    backupWrapped n = (n : Int) + 8 - 16 := by
  unfold backupWrapped toOff offsetofNumChannels offsetofSampleRate
  have e1 : (2 : Nat) ^ 64 = 18446744073709551616 := by norm_num
  have e2 : (2 : Nat) ^ 63 = 9223372036854775808 := by norm_num
  have e3 : (2 : Nat) ^ 32 = 4294967296 := by norm_num
  have e4 : (2 : Int) ^ 64 = 18446744073709551616 := by norm_num
  rw [e3] at h
  rw [e1, e2, e4]
  split <;> omega

theorem backup_eq_wrapped (s : State) : backup s = backupWrapped s.ckSize := by
  rw [backupWrapped_eq _ (ckSize_lt s)]
  rfl

theorem accessRate_dry (o : Opts) (s : State) (p : Nat) (hs : o.sampleRateOpt = true)
    (hn : o.noWriteOpt = true) :
    accessRate o s p = { s with pos := p + (readAt s.file p 10).length } := by
  unfold accessRate
  rw [if_pos ⟨hs, hn⟩]
  rfl

theorem accessRate_write (o : Opts) (s : State) (p : Nat) (hs : o.sampleRateOpt = true)
    (hn : o.noWriteOpt = false) :
    accessRate o s p = { s with file := writeAt s.file p (ldtox80 o.sampleRate), pos := p + 10 } := by
  unfold accessRate
  rw [if_neg (by simp [hn]), if_pos ⟨hs, hn⟩]
  rfl

theorem accessRate_counts (o : Opts) (s : State) (p : Nat) :
    (accessRate o s p).counts = s.counts ∧ (accessRate o s p).foundEOF = s.foundEOF ∧
      (accessRate o s p).buf = s.buf ∧ (accessRate o s p).calls = s.calls := by
  unfold accessRate
  split_ifs <;> exact ⟨rfl, rfl, rfl, rfl⟩

theorem commonChunk_pos (o : Opts) (s : State) : (commonChunk o s).pos = s.pos := by
  unfold commonChunk
  simp only []
  split <;> rfl

theorem commonChunk_file_dry (o : Opts) (s : State) (hs : o.sampleRateOpt = true)
    (hn : o.noWriteOpt = true) : (commonChunk o s).file = s.file := by
  unfold commonChunk
  simp only []
  split
  · rfl
  · rw [accessRate_dry o s _ hs hn]

theorem commonChunk_file_print (o : Opts) (s : State) (hs : o.sampleRateOpt = false) :
    (commonChunk o s).file = s.file := by
  unfold commonChunk
  simp only []
  split
  · rfl
  · unfold accessRate
    rw [if_neg (by simp [hs]), if_neg (by simp [hs])]

theorem loopStep_file_dry (o : Opts) (s : State) (hs : o.sampleRateOpt = true)
    (hn : o.noWriteOpt = true) : (loopStep o s).state.file = s.file := by
  have h := getChunks_file s
  unfold loopStep
  cases hr : getChunks s with
  | exit s1 =>
    rw [hr] at h
    exact h
  | ret id s1 =>
    rw [hr] at h
    have h1 : s1.file = s.file := h
    simp only []
    split_ifs
    · exact h1
    · exact h1
    · exact (commonChunk_file_dry o s1 hs hn).trans h1
    · exact h1

theorem loopStep_file_print (o : Opts) (s : State) (hs : o.sampleRateOpt = false) :
    (loopStep o s).state.file = s.file := by
  have h := getChunks_file s
  unfold loopStep
  cases hr : getChunks s with
  | exit s1 =>
    rw [hr] at h
    exact h
  | ret id s1 =>
    rw [hr] at h
    have h1 : s1.file = s.file := h
    simp only []
    split_ifs
    · exact h1
    · exact h1
    · exact (commonChunk_file_print o s1 hs).trans h1
    · exact h1

theorem chunkLoop_file_of_step (o : Opts)
    (hstep : ∀ s : State, (loopStep o s).state.file = s.file) (fuel : Nat) (s : State) :
    (chunkLoop o fuel s).state.file = s.file := by
  induction fuel generalizing s with
  | zero => rfl
  | succ k ih =>
    have h := hstep s
    unfold chunkLoop
    cases hr : loopStep o s with
    | next s1 =>
      rw [hr] at h
      exact (ih s1).trans h
    | done s1 =>
      rw [hr] at h
      exact h
    | exit s1 =>
      rw [hr] at h
      exact h

theorem mainLoop_files_of_step (o : Opts)
    (hstep : ∀ s : State, (loopStep o s).state.file = s.file) (fuel : Nat)
    (files : List (List Byte)) (i : Nat) (s : State) (before : List (List Byte)) :
    (mainLoop o fuel files i s before).files = before ++ files := by
  induction files generalizing i s before with
  | nil => simp [mainLoop]
  | cons f rest ih =>
    have hF := getFORMChunk_file (openFile s i f)
    unfold mainLoop
    cases hr : getFORMChunk (openFile s i f) with
    | exit s1 =>
      rw [hr] at hF
      have h1 : s1.file = f := hF
      simp only [h1]
    | ret id s1 =>
      rw [hr] at hF
      have h1 : s1.file = f := hF
      simp only []
      split_ifs
      · rw [ih, h1]
        simp
      · have hL := chunkLoop_file_of_step o hstep fuel s1
        cases hl : chunkLoop o fuel s1 with
        | exit s2 =>
          rw [hl] at hL
          have h2 : s2.file = f := hL.trans h1
          simp only [h2]
        | fuel s2 =>
          rw [hl] at hL
          have h2 : s2.file = f := hL.trans h1
          simp only [h2]
        | done s2 =>
          rw [hl] at hL
          have h2 : s2.file = f := hL.trans h1
          simp only []
          rw [ih, h2]
          simp

/-- C4: with `-s` and `-n` the block for the common chunk seeks to the
offset `lseekCur s.pos (-(backup s))`, the one at which the write path
puts the encoded rate, and only reads there: the file it leaves is the
file it found, and the offset it leaves is the offset recorded before the
backward seek, so the next header is read where `getChunks` left the
descriptor.  Over a whole run no file is changed, whatever the fuel. -/
theorem commonChunk_dry_run (o : Opts) (hs : o.sampleRateOpt = true)
    (hn : o.noWriteOpt = true) :
    (∀ s : State, (commonChunk o s).file = s.file ∧ (commonChunk o s).pos = s.pos) ∧
    (∀ (s : State) (p : Nat), lseekCur s.pos (-(backup s)) = some p →
      accessRate o s p = { s with pos := p + (readAt s.file p 10).length } ∧
      (commonChunk { o with noWriteOpt := false } s).file =
        writeAt s.file p (ldtox80 o.sampleRate)) ∧
    (∀ (fuel : Nat) (files : List (List Byte)), (main o fuel files).files = files) := by
  refine ⟨fun s => ⟨commonChunk_file_dry o s hs hn, commonChunk_pos o s⟩, fun s p hp => ?_,
    fun fuel files => ?_⟩
  · refine ⟨accessRate_dry o s p hs hn, ?_⟩
    unfold commonChunk
    simp only [hp]
    rw [accessRate_write { o with noWriteOpt := false } s p hs rfl]
  · unfold main
    rw [mainLoop_files_of_step o (fun s => loopStep_file_dry o s hs hn)]
    rfl

/-- C4, instance: `affix -n -s 48000` on the example file leaves the file
as it was, prints its line and ends normally. -/
theorem commonChunk_dry_run_witness :
    (main dryRun48000 4 [goodAIFF]).files = [goodAIFF] ∧
      (main dryRun48000 4 [goodAIFF]).status = .finished := by
  refine ⟨(commonChunk_dry_run dryRun48000 rfl rfl).2.2 4 [goodAIFF], by decide⟩

/-! ## The common chunk in the loop -/

theorem loopStep_of_ret_other (o : Opts) (s s1 : State) (id : Nat)
    (h : getChunks s = .ret id s1) (hid : id ≠ 0) (hc : CFSwapInt32 id ≠ CommonID) :
    loopStep o s = .next s1 := by
  unfold loopStep
  rw [h]
  simp only [hid, hc, if_false]
  split_ifs <;> rfl

theorem loopStep_of_zero (o : Opts) (s s1 : State) (h : getChunks s = .ret 0 s1) :
    loopStep o s = .done s1 := by
  unfold loopStep
  rw [h]
  simp only [if_true]

theorem sizeAt_lt (f : List Byte) (p : Nat) : sizeAt f p < 2 ^ 32 := by
  unfold sizeAt be32
  have h0 := ((f.drop (p + 4)).getD 0 0).isLt
  have h1 := ((f.drop (p + 4)).getD 1 0).isLt
  have h2 := ((f.drop (p + 4)).getD 2 0).isLt
  have h3 := ((f.drop (p + 4)).getD 3 0).isLt
  omega

/-- C2, at the failing input: `affix -s 48000` on the compressed example
file, whose common chunk starts at offset 24 and declares the odd size 23.
The ten bytes at offsets 40 .. 49 (the sample-rate field) are not the
encoding of 48000 afterwards; the encoding stands one byte later, at
offsets 41 .. 50, because the backward seek of 23 + 8 - 16 bytes starts
behind the pad byte. -/
theorem rewrite_odd_size_off_by_one :
    (main rewrite48000 5 [oddAIFC]).status = .finished ∧
    (main rewrite48000 5 [oddAIFC]).files.map (fun f => (f.drop 40).take 10)
      ≠ [ldtox80 48000] ∧
    (main rewrite48000 5 [oddAIFC]).files.map (fun f => (f.drop 41).take 10)
      = [ldtox80 48000] := by
  decide

/-- C3, at the failing inputs: `affix -s 48000` on the compressed example
file changes the byte at offset 50, the first byte of the compression type
behind the sample-rate field (offsets 40 .. 49) of its common chunk of odd
size; and on a file that ends with a common chunk header declaring the size
0 it makes the file 18 bytes longer. -/
theorem rewrite_changes_other_bytes :
    oddAIFC.getD 50 0 = 0x4E ∧
    (main rewrite48000 5 [oddAIFC]).files.map (fun f => f.getD 50 0) = [0] ∧
    (formAIFF ++ comm0).length = 20 ∧
    (main rewrite48000 5 [formAIFF ++ comm0]).files.map List.length = [38] := by
  decide

/-- C9, at the failing input: a file that is not a container followed by
the valid example file.  Given alone the valid file gets its line; given
after the invalid one it gets none and `getChunks` is never called for it,
although the run ends normally: `invalidFile` is still set from the first
file when `main` tests it for the second. -/
theorem valid_file_after_invalid_skipped :
    (main printOnly 5 [goodAIFF]).final.out
      = [{ fileName := 0, sampleRate := [0x40, 0x0E, 0xAC, 0x44, 0, 0, 0, 0, 0, 0]
           detail := none, reset := none }] ∧
    (main printOnly 5 [riffWave, goodAIFF]).status = .finished ∧
    (main printOnly 5 [riffWave, goodAIFF]).final.out = [] ∧
    (main printOnly 5 [riffWave, goodAIFF]).final.calls = 0 ∧
    (main printOnly 5 [riffWave, goodAIFF]).final.err = [(0, .formMissing)] := by
  decide

/-- C11, at the failing input: `affix -s 48000` on a file with a second
'FORM' header at offset 12 followed by a common chunk at offset 20.  The
file is marked Invalid at the second header, and the rate field of the
common chunk behind it (offsets 36 .. 45) is rewritten all the same. -/
theorem rewrite_after_nested_form :
    (main rewrite48000 5 [nestedFormAIFF]).final.invalidFile = true ∧
    (main rewrite48000 5 [nestedFormAIFF]).final.err = [(0, .dupFORM)] ∧
    [(nestedFormAIFF.drop 36).take 10] ≠ [ldtox80 48000] ∧
    (main rewrite48000 5 [nestedFormAIFF]).files.map (fun f => (f.drop 36).take 10)
      = [ldtox80 48000] := by
  decide

/-- C13, at the failing input: an uncompressed file that holds a format
version chunk is processed without any diagnostic and without
`invalidFile`, and gets its line.  The other two cases of the claim are
reported: a compressed file without the chunk gets the diagnostic at the
end of the file, one with two of them is marked Invalid. -/
theorem fver_in_uncompressed_accepted :
    (main printOnly 5 [fverInAIFF]).status = .finished ∧
    (main printOnly 5 [fverInAIFF]).final.err = [] ∧
    (main printOnly 5 [fverInAIFF]).final.invalidFile = false ∧
    (main printOnly 5 [fverInAIFF]).final.out.length = 1 ∧
    (main printOnly 5 [noFverAIFC]).final.err = [(0, .noFVER)] ∧
    (main printOnly 5 [twoFverAIFC]).final.err = [(0, .dupFVER)] ∧
    (main printOnly 5 [twoFverAIFC]).final.invalidFile = true := by
  decide

/-- C14, at the failing input: `affix -n -s 48000` on a file whose common
chunk declares the size 0 and is followed by one annotation chunk.  The
backward seek leads to offset 28, the end of the file, where the dry-run
read transfers no byte; nothing is reported, and the loop goes on to read
the header of the annotation chunk and the one after it: three calls of
`getChunks` in all, and the run ends normally. -/
theorem short_transfer_not_fatal :
    shortCommAIFF.length = 28 ∧
    lseekCur 20 (-(backup { State.init with buf := comm0 })) = some 28 ∧
    readAt shortCommAIFF 28 sizeofExtended80 = [] ∧
    (main dryRun48000 5 [shortCommAIFF]).status = .finished ∧
    (main dryRun48000 5 [shortCommAIFF]).final.err = [] ∧
    (main dryRun48000 5 [shortCommAIFF]).final.calls = 3 := by
  decide

/-- C16, at the failing input: an uncompressed file with two MIDI data
chunks behind its common chunk is marked Invalid by `getChunks` at the
second of them, with the diagnostic for a repeated MIDI chunk as the only
one. -/
theorem two_midi_chunks_invalid :
    (main printOnly 5 [twoMidiAIFF]).final.invalidFile = true ∧
    (main printOnly 5 [twoMidiAIFF]).final.err = [(0, .dupMIDI)] ∧
    (main printOnly 5 [formAIFF ++ comm18 ++ midiChunk]).final.invalidFile = false := by
  decide

/-! ## The first header of a file -/

theorem getFORMChunk_other (s : State) (h : s.pos + 8 ≤ s.file.length)
    (ht : tagAt s.file s.pos ≠ FORMID) :
    getFORMChunk s = .ret (hostWord (s.file.drop s.pos))
      (State.invalid { s with buf := readAt s.file s.pos 8 ++ s.buf.drop 8, pos := s.pos + 8 }
        .formMissing) := by
  have hl : (readAt s.file s.pos 8).length = 8 := by
    rw [readAt_length]; omega
  have hw : hostWord (readAt s.file s.pos 8 ++ List.drop 8 s.buf)
      = hostWord (s.file.drop s.pos) := by
    rw [hostWord_append _ _ (by omega), hostWord_readAt _ _ _ (by omega)]
  have hne : ¬ CFSwapInt32 (hostWord (s.file.drop s.pos)) = FORMID := by
    rw [tag_of_tagAt]; exact ht
  unfold getFORMChunk
  simp only [sizeofChunkHeader, hl, store_header _ _ hl, hw, hne, ne_eq, not_true_eq_false,
    if_false]

theorem getFORMChunk_short (s : State) (h : s.file.length - s.pos < 8) :
    ∃ s' : State, getFORMChunk s = .exit s' ∧ s'.file = s.file ∧ s'.out = s.out ∧
      s'.calls = s.calls ∧ s'.invalidFile = s.invalidFile ∧ s'.foundEOF = s.foundEOF := by
  have hl : (readAt s.file s.pos 8).length ≠ 8 := by
    rw [readAt_length]; omega
  unfold getFORMChunk
  simp only [sizeofChunkHeader, hl, ne_eq, not_false_eq_true, if_true]
  exact ⟨_, rfl, rfl, rfl, rfl, rfl, rfl⟩

theorem getFORMChunk_short_type (s : State) (h : s.pos + 8 ≤ s.file.length)
    (h12 : s.file.length < s.pos + 12) (ht : tagAt s.file s.pos = FORMID) :
    ∃ s' : State, getFORMChunk s = .exit s' ∧ s'.file = s.file ∧ s'.out = s.out ∧
      s'.calls = s.calls ∧ s'.invalidFile = s.invalidFile ∧ s'.foundEOF = s.foundEOF := by
  have hl : (readAt s.file s.pos 8).length = 8 := by
    rw [readAt_length]; omega
  have hf : (readAt s.file (s.pos + 8) 4).length ≠ 4 := by
    rw [readAt_length]; omega
  have hw : CFSwapInt32 (hostWord (readAt s.file s.pos 8 ++ List.drop 8 s.buf))
      = FORMID := by
    rw [hostWord_append _ _ (by omega), hostWord_readAt _ _ _ (by omega),
      tag_of_tagAt, ht]
  unfold getFORMChunk
  simp only [sizeofChunkHeader, sizeofFormType, hl, store_header _ _ hl, hw, hf,
    if_true, ne_eq, not_true_eq_false, not_false_eq_true, if_false]
  exact ⟨_, rfl, rfl, rfl, rfl, rfl, rfl⟩

/-- C8: a file of at least 8 bytes whose first header does not carry the
tag 'FORM' is marked Invalid by `getFORMChunk`, which returns (no exit)
with every counter at the 0 it was reset to; `main` goes straight on to
the next file, so the number of `getChunks` calls is what it was before
the file.  Given alone, such a file ends the run normally, unchanged, with
no call of `getChunks` at all. -/
theorem first_header_not_container (o : Opts) (fuel : Nat) (f : List Byte)
    (rest : List (List Byte)) (i : Nat) (s : State) (before : List (List Byte))
    (h8 : 8 ≤ f.length) (ht : tagAt f 0 ≠ FORMID) :
    (∃ (id : Nat) (s' : State), getFORMChunk (openFile s i f) = .ret id s' ∧
      s'.invalidFile = true ∧ s'.counts = Counts.zero ∧ s'.calls = s.calls ∧
      s'.file = f ∧ s'.out = s.out ∧
      mainLoop o fuel (f :: rest) i s before
        = mainLoop o fuel rest (i + 1) s' (before ++ [f])) ∧
    (main o fuel [f]).status = .finished ∧ (main o fuel [f]).files = [f] ∧
    (main o fuel [f]).final.invalidFile = true ∧
    (main o fuel [f]).final.counts = Counts.zero ∧ (main o fuel [f]).final.calls = 0 ∧
    (main o fuel [f]).final.out = [] := by
  have key : ∀ (s : State) (i : Nat), getFORMChunk (openFile s i f) =
      .ret (hostWord (f.drop 0))
        (State.invalid { openFile s i f with
            buf := readAt f 0 8 ++ (openFile s i f).buf.drop 8, pos := 0 + 8 }
          .formMissing) :=
    fun s i => getFORMChunk_other (openFile s i f) (by simpa [openFile] using h8)
      (by simpa [openFile] using ht)
  refine ⟨⟨_, _, key s i, rfl, rfl, rfl, rfl, rfl, ?_⟩, ?_⟩
  · conv => lhs; unfold mainLoop
    rw [key s i]
    rfl
  · unfold main
    unfold mainLoop
    rw [key State.init 0]
    simp only [invalid_invalidFile, if_true]
    unfold mainLoop
    exact ⟨rfl, rfl, rfl, rfl, rfl, rfl⟩

/-- C8, instance: the first twelve bytes of a RIFF/WAVE file given alone. -/
theorem first_header_not_container_witness :
    (main printOnly 5 [riffWave]).status = .finished ∧
      (main printOnly 5 [riffWave]).final.invalidFile = true ∧
      (main printOnly 5 [riffWave]).final.counts = Counts.zero ∧
      (main printOnly 5 [riffWave]).final.calls = 0 := by
  obtain ⟨_, h1, _, h2, h3, h4, _⟩ :=
    first_header_not_container printOnly 5 riffWave [] 0 State.init [] (by decide) (by decide)
  exact ⟨h1, h2, h3, h4⟩

/-- C18: a file of fewer than 8 bytes, the empty file included, and a file
that has the 'FORM' header but fewer than 4 bytes after it, make
`getFORMChunk` end the process: the run is aborted at that file, the files
after it are left as they are, nothing is printed for them and `getChunks`
is not called; the short first read sets neither `foundEOF` nor
`invalidFile`. -/
theorem short_first_chunk_aborts (o : Opts) (fuel : Nat) (f : List Byte)
    (rest : List (List Byte)) (i : Nat) (s : State) (before : List (List Byte))
    (h : f.length < 8 ∨ (8 ≤ f.length ∧ f.length < 12 ∧ tagAt f 0 = FORMID)) :
    (mainLoop o fuel (f :: rest) i s before).status = .aborted ∧
    (mainLoop o fuel (f :: rest) i s before).files = before ++ f :: rest ∧
    (mainLoop o fuel (f :: rest) i s before).final.out = s.out ∧
    (mainLoop o fuel (f :: rest) i s before).final.calls = s.calls ∧
    (mainLoop o fuel (f :: rest) i s before).final.invalidFile = s.invalidFile ∧
    (mainLoop o fuel (f :: rest) i s before).final.foundEOF = s.foundEOF := by
  have key : ∃ s' : State, getFORMChunk (openFile s i f) = .exit s' ∧ s'.file = f ∧
      s'.out = s.out ∧ s'.calls = s.calls ∧ s'.invalidFile = s.invalidFile ∧
      s'.foundEOF = s.foundEOF := by
    rcases h with h | ⟨h1, h2, h3⟩
    · exact getFORMChunk_short (openFile s i f) (by simpa [openFile] using h)
    · exact getFORMChunk_short_type (openFile s i f) (by simpa [openFile] using h1)
        (by simpa [openFile] using h2) (by simpa [openFile] using h3)
  obtain ⟨s', h1, h2, h3, h4, h5, h6⟩ := key
  unfold mainLoop
  rw [h1]
  refine ⟨rfl, ?_, h3, h4, h5, h6⟩
  show before ++ s'.file :: rest = _
  rw [h2]

/-- C18, instances: the empty file and a file cut off inside the form type,
each followed by the valid example file, which gets no line. -/
theorem short_first_chunk_aborts_witness :
    (main printOnly 5 [[], goodAIFF]).status = .aborted ∧
      (main printOnly 5 [[], goodAIFF]).final.out = [] ∧
      (main printOnly 5 [formAIFF.take 10, goodAIFF]).status = .aborted ∧
      (main printOnly 5 [formAIFF.take 10, goodAIFF]).final.out = [] := by
  obtain ⟨h1, _, h2, _⟩ :=
    short_first_chunk_aborts printOnly 5 [] [goodAIFF] 0 State.init [] (Or.inl (by decide))
  obtain ⟨h3, _, h4, _⟩ :=
    short_first_chunk_aborts printOnly 5 (formAIFF.take 10) [goodAIFF] 0 State.init []
      (Or.inr (by decide))
  exact ⟨h1, h2, h3, h4⟩

/-! ## A tag that is not recognized -/

theorem dispatch_unknown (id : Nat) (s1 : State) (he : s1.foundEOF = false)
    (h : CFSwapInt32 id ∉ allTags) : dispatch id s1 = .ret 0 (s1.report .unknownChunk) := by
  simp only [allTags, localTags, List.mem_cons, List.mem_singleton, List.mem_nil_iff, or_false,
    not_or] at h
  obtain ⟨h0, h1, h2, h3, h4, h5, h6, h7, h8, h9, h10, h11, h12, h13⟩ := h
  unfold dispatch
  rw [if_neg (by simp [he]), if_neg h0, if_neg h1, if_neg h2, if_neg h3, if_neg h4, if_neg h5,
    if_neg h6, if_neg h7, if_neg h8, if_neg h9, if_neg h10, if_neg h11, if_neg h12, if_neg h13]

theorem dispatch_foundEOF (id : Nat) (s1 : State) (he : s1.foundEOF = true) :
    dispatch id s1 = .ret 0 s1 := by
  unfold dispatch
  rw [if_pos he]

theorem getChunks_of_header (s : State) (h : s.pos + 8 ≤ s.file.length) :
    getChunks s = dispatch (hostWord (s.file.drop s.pos)) (headState s) := by
  unfold getChunks
  rw [getChunks_head s h]

theorem chunkLoop_of_done (o : Opts) (fuel : Nat) (s s1 : State) (h : loopStep o s = .done s1) :
    chunkLoop o (fuel + 1) s = .done s1 := by
  unfold chunkLoop
  rw [h]

/-- C12: for a header whose tag is none of the recognized ones `getChunks`
returns 0, which ends the chunk loop of `main`; `foundEOF`, `invalidFile`
and every counter are as before the call, the file is not changed, and the
offset is 8 bytes further, behind the header. -/
theorem unknown_tag_ends_loop (o : Opts) (fuel : Nat) (s : State)
    (h : s.pos + 8 ≤ s.file.length) (ht : tagAt s.file s.pos ∉ allTags) :
    ∃ s' : State, getChunks s = .ret 0 s' ∧ s'.foundEOF = s.foundEOF ∧
      s'.invalidFile = s.invalidFile ∧ s'.counts = s.counts ∧ s'.pos = s.pos + 8 ∧
      s'.file = s.file ∧ chunkLoop o (fuel + 1) s = .done s' := by
  have hg := getChunks_of_header s h
  cases he : s.foundEOF with
  | true =>
    rw [dispatch_foundEOF _ _ (by simpa using he)] at hg
    exact ⟨_, hg, by simp [he], by simp, by simp, by simp, by simp,
      chunkLoop_of_done o fuel s _ (loopStep_of_zero o s _ hg)⟩
  | false =>
    rw [dispatch_unknown _ _ (by simpa using he) (by rw [tag_of_tagAt]; exact ht)] at hg
    exact ⟨_, hg, by simp [he], by simp, by simp, by simp, by simp,
      chunkLoop_of_done o fuel s _ (loopStep_of_zero o s _ hg)⟩

/-- C12, instance: the chunk 'JUNK' at offset 12 of a file ends the loop
with the offset at 20 and the flags unset. -/
theorem unknown_tag_ends_loop_witness :
    ∃ s' : State,
      chunkLoop printOnly 5
          { State.init with file := formAIFF ++ junkChunk ++ comm18, pos := 12 } = .done s' ∧
        s'.foundEOF = false ∧ s'.invalidFile = false ∧ s'.counts = Counts.zero ∧
        s'.pos = 20 := by
  obtain ⟨s', _, h1, h2, h3, h4, _, h5⟩ :=
    unknown_tag_ends_loop printOnly 4
      { State.init with file := formAIFF ++ junkChunk ++ comm18, pos := 12 }
      (by decide) (by decide)
  exact ⟨s', h5, h1, h2, h3, h4⟩

/-! ## The Extended80 encoding -/

theorem leadingBit_spec (k r : Nat) (hk : r < 2 ^ k) (hr : 1 ≤ r) :
    2 ^ leadingBit k r ≤ r ∧ r < 2 ^ (leadingBit k r + 1) := by
  induction k generalizing r with
  | zero =>
    simp at hk
    omega
  | succ k ih =>
    unfold leadingBit
    by_cases h2 : r < 2
    · rw [if_pos h2]
      simp
      omega
    · rw [if_neg h2]
      have hk' : r / 2 < 2 ^ k := by
        rw [Nat.pow_succ] at hk
        omega
      obtain ⟨h3, h4⟩ := ih (r / 2) hk' (by omega)
      rw [Nat.pow_succ, Nat.pow_succ]
      constructor <;> omega

theorem leadingBit_self (r : Nat) (hr : 1 ≤ r) :
    2 ^ leadingBit r r ≤ r ∧ r < 2 ^ (leadingBit r r + 1) :=
  leadingBit_spec r r (Nat.lt_two_pow r) hr

/-- The exponent and the mantissa `ldtox80` encodes for a 32-bit rate. -/
theorem ldtox80_parts (r : Nat) (hr : 1 ≤ r) (h32 : r < 2 ^ 32) :
    ∃ e m : Nat, e ≤ 31 ∧ 2 ^ 63 ≤ m ∧ m < 2 ^ 64 ∧ m % 2 ^ 32 = 0 ∧
      m = r * 2 ^ (63 - e) ∧ 2 ^ e * 2 ^ (63 - e) = 2 ^ 63 ∧
      ldtox80 r = bigEndian 2 (16383 + e) ++ bigEndian 8 m := by
  obtain ⟨h1, h2⟩ := leadingBit_self r hr
  have he : leadingBit r r ≤ 31 := by
    by_contra hc
    have : 2 ^ 32 ≤ 2 ^ leadingBit r r := Nat.pow_le_pow_right (by norm_num) (by omega)
    omega
  refine ⟨leadingBit r r, r * 2 ^ (63 - leadingBit r r), he, ?_, ?_, ?_, rfl, ?_, ?_⟩
  · calc 2 ^ 63 = 2 ^ leadingBit r r * 2 ^ (63 - leadingBit r r) := by
          rw [← Nat.pow_add]; congr 1; omega
      _ ≤ r * 2 ^ (63 - leadingBit r r) := Nat.mul_le_mul_right _ h1
  · calc r * 2 ^ (63 - leadingBit r r)
        < 2 ^ (leadingBit r r + 1) * 2 ^ (63 - leadingBit r r) :=
          Nat.mul_lt_mul_of_pos_right h2 (Nat.pow_pos (by norm_num))
      _ = 2 ^ 64 := by
          rw [← Nat.pow_add]; congr 1; omega
  · have : 63 - leadingBit r r = 32 + (31 - leadingBit r r) := by omega
    rw [this, Nat.pow_add]
    have e : r * (2 ^ 32 * 2 ^ (31 - leadingBit r r))
        = 2 ^ 32 * (r * 2 ^ (31 - leadingBit r r)) := by ring
    rw [e]
    exact Nat.mul_mod_right _ _
  · rw [← Nat.pow_add]; congr 1; omega
  · unfold ldtox80
    rw [if_neg (by omega)]
    simp only [show leadingBit r r ≤ 63 by omega, if_true]

theorem fromBigEndian_eight (m : Nat) (h : m < 2 ^ 64) :
    fromBigEndian (bigEndian 8 m) = m := by
  simp only [bigEndian, fromBigEndian, List.foldl]
  norm_num at h ⊢
  omega

theorem ldtox80_length (r : Nat) : (ldtox80 r).length = 10 := by
  unfold ldtox80
  split
  · simp
  · simp [bigEndian]

/-- C15: for every integer rate `r` with 1 ≤ r ≤ 2^32 - 1 the ten bytes
`ldtox80` gives decode under `x80told` to exactly `r`, and encoding the
decoded value again gives the same ten bytes. -/
theorem x80_round_trip (r : Nat) (hr : 1 ≤ r) (h32 : r ≤ 2 ^ 32 - 1) :
    (ldtox80 r).length = 10 ∧ x80told (ldtox80 r) = (r : ℚ) ∧
      ∀ n : Nat, (n : ℚ) = x80told (ldtox80 r) → ldtox80 n = ldtox80 r := by
  have key : x80told (ldtox80 r) = (r : ℚ) := by
    obtain ⟨e, m, he, hm1, hm2, _, hm, hpow, hl⟩ := ldtox80_parts r hr (by omega)
    have hman : fromBigEndian (((bigEndian 2 (16383 + e) ++ bigEndian 8 m).drop 2).take 8)
        = m := by
      have : ((bigEndian 2 (16383 + e) ++ bigEndian 8 m).drop 2).take 8 = bigEndian 8 m := by
        simp [bigEndian]
      rw [this, fromBigEndian_eight m hm2]
    have h0 : ((bigEndian 2 (16383 + e) ++ bigEndian 8 m).getD 0 0).val
        = (16383 + e) / 256 % 256 := by
      simp [bigEndian]
    have h1 : ((bigEndian 2 (16383 + e) ++ bigEndian 8 m).getD 1 0).val
        = (16383 + e) % 256 := by
      simp [bigEndian]
    have hsign : (16383 + e) / 256 % 256 / 128 = 0 := by omega
    have hexp : (16383 + e) / 256 % 256 % 128 * 256 + (16383 + e) % 256 = 16383 + e := by
      omega
    rw [hl]
    unfold x80told
    simp only [hman, h0, h1, hsign, hexp]
    rw [if_neg (by omega)]
    have hz : ((16383 + e : Nat) : ℤ) - 16383 = (e : ℤ) := by
      push_cast; ring
    rw [hz, zpow_natCast, pow_zero, one_mul, hm]
    have hq : ((2 : ℚ) ^ e) * (2 : ℚ) ^ (63 - e) = (2 : ℚ) ^ 63 := by
      exact_mod_cast hpow
    push_cast
    have h63 : ((2 : ℚ) ^ 63) ≠ 0 := by positivity
    field_simp
    rw [← hq]
    ring
  refine ⟨ldtox80_length r, key, fun n hn => ?_⟩
  rw [key] at hn
  have : n = r := by exact_mod_cast hn
  rw [this]

/-- C15, instances: the rates 1, 44100 and 2^32 - 1. -/
theorem x80_round_trip_witness :
    x80told (ldtox80 1) = 1 ∧ x80told (ldtox80 44100) = 44100 ∧
      x80told (ldtox80 4294967295) = 4294967295 ∧
      ldtox80 44100 = [0x40, 0x0E, 0xAC, 0x44, 0, 0, 0, 0, 0, 0] := by
  refine ⟨?_, ?_, ?_, by decide⟩
  · exact_mod_cast (x80_round_trip 1 (by decide) (by decide)).2.1
  · exact_mod_cast (x80_round_trip 44100 (by decide) (by decide)).2.1
  · exact_mod_cast (x80_round_trip 4294967295 (by decide) (by decide)).2.1

/-! ## Bytes of a file after a write -/

theorem getD_writeAt (f d : List Byte) (t j : Nat) :
    (writeAt f t d).getD j 0 =
      if j < t then f.getD j 0 else if j < t + d.length then d.getD (j - t) 0
      else f.getD j 0 := by
  have hpre : (List.take t f ++ List.replicate (t - f.length) (0 : Byte)).length = t := by
    simp only [List.length_append, List.length_take, List.length_replicate]
    omega
  unfold writeAt
  simp only [List.getD_eq_getElem?_getD]
  by_cases h1 : j < t
  · rw [if_pos h1, List.append_assoc, List.getElem?_append_left (by omega)]
    by_cases h2 : j < f.length
    · rw [List.getElem?_append_left (by simp; omega), List.getElem?_take_of_lt h1]
    · rw [List.getElem?_append_right (by simp; omega)]
      rw [List.getElem?_eq_none (by omega : f.length ≤ j)]
      simp only [List.length_take, Option.getD_none]
      rw [List.getElem?_replicate]
      split <;> rfl
  · rw [if_neg h1]
    by_cases h2 : j < t + d.length
    · rw [if_pos h2, List.getElem?_append_left (by simp; omega),
        List.getElem?_append_right (by omega), hpre]
    · rw [if_neg h2, List.getElem?_append_right (by simp; omega)]
      simp only [List.length_append, hpre, List.getElem?_drop]
      congr 2
      omega

theorem tagAt_bytes (f : List Byte) (q : Nat) :
    tagAt f q = (f.getD q 0).val * 2 ^ 24 + (f.getD (q + 1) 0).val * 2 ^ 16
      + (f.getD (q + 2) 0).val * 2 ^ 8 + (f.getD (q + 3) 0).val := by
  unfold tagAt be32
  simp only [getD_drop, Nat.add_zero]

theorem tag_bytes (b0 b1 b2 b3 : Nat) (_h0 : b0 < 256) (h1 : b1 < 256) (h2 : b2 < 256)
    (h3 : b3 < 256) (h : b0 * 2 ^ 24 + b1 * 2 ^ 16 + b2 * 2 ^ 8 + b3 ∈ allTags) :
    tagByte b0 ∧ tagByte b1 ∧ tagByte b2 ∧ tagByte b3 := by
  simp only [allTags, localTags, List.mem_cons, List.mem_singleton, List.mem_nil_iff, or_false,
    FORMID, CommonID, FormatVersionID, SoundDataID, MarkerID, InstrumentID, MIDIDataID,
    AudioRecordingID, ApplicationSpecificID, CommentID, NameID, AuthorID, CopyrightID,
    AnnotationID] at h
  norm_num at h
  unfold tagByte
  rcases h with h | h | h | h | h | h | h | h | h | h | h | h | h | h <;>
    refine ⟨?_, ?_, ?_, ?_⟩ <;> omega

theorem ldtox80_bad (r : Nat) (h32 : r < 2 ^ 32) (k : Nat)
    (hk : k = 0 ∨ k = 1 ∨ k = 2 ∨ k = 6 ∨ k = 7 ∨ k = 8 ∨ k = 9) :
    ¬ tagByte ((ldtox80 r).getD k 0).val := by
  by_cases hr : r = 0
  · subst hr
    unfold tagByte
    rcases hk with rfl | rfl | rfl | rfl | rfl | rfl | rfl <;> decide
  · obtain ⟨e, m, he, hm1, hm2, hm3, _, _, hl⟩ := ldtox80_parts r (by omega) h32
    rw [hl]
    unfold tagByte
    norm_num at hm1 hm2 hm3
    rcases hk with rfl | rfl | rfl | rfl | rfl | rfl | rfl <;>
      simp [bigEndian] <;> omega

/-- A write of an encoded 32-bit rate leaves no recognized tag on any four
bytes it touches: where the file shows a recognized tag after the write, it
showed the same tag before. -/
theorem tagAt_writeAt (f : List Byte) (t r q : Nat) (h32 : r < 2 ^ 32)
    (h : tagAt (writeAt f t (ldtox80 r)) q ∈ allTags) :
    tagAt (writeAt f t (ldtox80 r)) q = tagAt f q := by
  have hlen := ldtox80_length r
  have hbad : ∀ j k : Nat, j = t + k →
      (k = 0 ∨ k = 1 ∨ k = 2 ∨ k = 6 ∨ k = 7 ∨ k = 8 ∨ k = 9) →
      ¬ tagByte ((writeAt f t (ldtox80 r)).getD j 0).val := by
    intro j k hj hk
    rw [getD_writeAt, if_neg (by omega), if_pos (by omega)]
    have : j - t = k := by omega
    rw [this]
    exact ldtox80_bad r h32 k hk
  rw [tagAt_bytes] at h
  obtain ⟨g0, g1, g2, g3⟩ := tag_bytes _ _ _ _ (Fin.isLt _) (Fin.isLt _) (Fin.isLt _)
    (Fin.isLt _) h
  have a0 : q ≠ t := fun e => hbad q 0 (by omega) (by omega) g0
  have a1 : q + 1 ≠ t := fun e => hbad (q + 1) 0 (by omega) (by omega) g1
  have a2 : q + 2 ≠ t := fun e => hbad (q + 2) 0 (by omega) (by omega) g2
  have a3 : q + 3 ≠ t := fun e => hbad (q + 3) 0 (by omega) (by omega) g3
  have b1 : q ≠ t + 1 := fun e => hbad q 1 (by omega) (by omega) g0
  have b2 : q ≠ t + 2 := fun e => hbad q 2 (by omega) (by omega) g0
  have b3 : q + 3 ≠ t + 6 := fun e => hbad (q + 3) 6 (by omega) (by omega) g3
  have b4 : q + 2 ≠ t + 6 := fun e => hbad (q + 2) 6 (by omega) (by omega) g2
  have b5 : q + 1 ≠ t + 6 := fun e => hbad (q + 1) 6 (by omega) (by omega) g1
  have b6 : q ≠ t + 6 := fun e => hbad q 6 (by omega) (by omega) g0
  have b7 : q ≠ t + 7 := fun e => hbad q 7 (by omega) (by omega) g0
  have b8 : q ≠ t + 8 := fun e => hbad q 8 (by omega) (by omega) g0
  have b9 : q ≠ t + 9 := fun e => hbad q 9 (by omega) (by omega) g0
  have hout : q + 3 < t ∨ t + 10 ≤ q := by omega
  rw [tagAt_bytes, tagAt_bytes]
  have same : ∀ j : Nat, j < t ∨ t + 10 ≤ j →
      (writeAt f t (ldtox80 r)).getD j 0 = f.getD j 0 := by
    intro j hj
    rw [getD_writeAt]
    split_ifs <;> first | rfl | omega
  rw [same q (by omega), same (q + 1) (by omega), same (q + 2) (by omega),
    same (q + 3) (by omega)]

/-- A recognized tag lies inside the file. -/
theorem tagAt_inside (f : List Byte) (q : Nat) (h : tagAt f q ∈ allTags) :
    q + 4 ≤ f.length := by
  rw [tagAt_bytes] at h
  obtain ⟨_, _, _, g3⟩ := tag_bytes _ _ _ _ (Fin.isLt _) (Fin.isLt _) (Fin.isLt _)
    (Fin.isLt _) h
  by_contra hc
  have : f.getD (q + 3) 0 = 0 := by
    rw [List.getD_eq_getElem?_getD, List.getElem?_eq_none (by omega)]
    rfl
  rw [this] at g3
  unfold tagByte at g3
  simp at g3

/-! ## Termination of the chunk loop -/

theorem getChunkBody_pos_le (s : State) (n : Nat) : s.pos ≤ (getChunkBody s n).state.pos := by
  unfold getChunkBody
  simp only []
  split_ifs <;> simp [Outcome.state]

theorem skipChunk_pos_le (s : State) (id : Nat) : s.pos ≤ (skipChunk s id).state.pos := by
  rw [skipChunk_eq]
  simp [Outcome.state]

theorem fverBody_pos_le (s : State) (n : Nat) :
    s.pos ≤ (match getChunkBody s n with
      | .exit s3 => Outcome.exit s3
      | .ret id3 s3 =>
        .ret id3
          (s3.reportIf (CFSwapInt32 (hostWord (s3.buf.drop 8)) ≠ AIFCVersion1)
            .fverTimestamp)).state.pos := by
  have h2 := getChunkBody_pos_le s n
  cases hb : getChunkBody s n with
  | exit s3 =>
    rw [hb] at h2
    exact h2
  | ret id3 s3 =>
    rw [hb] at h2
    simpa [Outcome.state] using h2

theorem le_of_eq_of_le' {a b c : Nat} (h1 : a = b) (h2 : b ≤ c) : a ≤ c := h1 ▸ h2

theorem dispatch_pos_le (id : Nat) (s1 : State) : s1.pos ≤ (dispatch id s1).state.pos := by
  unfold dispatch
  by_cases h0 : s1.foundEOF = true
  · rw [if_pos h0]
    exact Nat.le_refl _
  rw [if_neg h0]
  by_cases h1 : CFSwapInt32 id = FORMID
  · rw [if_pos h1]
    exact Nat.le_refl _
  rw [if_neg h1]
  by_cases h2 : CFSwapInt32 id = CommonID
  · rw [if_pos h2]
    exact le_of_eq_of_le' (count_pos _ _ _ _).symm (getChunkBody_pos_le _ _)
  rw [if_neg h2]
  by_cases h3 : CFSwapInt32 id = FormatVersionID
  · rw [if_pos h3]
    exact le_of_eq_of_le' (count_pos _ _ _ _).symm (fverBody_pos_le _ _)
  rw [if_neg h3]
  by_cases h4 : CFSwapInt32 id = SoundDataID
  · rw [if_pos h4]
    exact le_of_eq_of_le' (count_pos _ _ _ _).symm (skipChunk_pos_le _ _)
  rw [if_neg h4]
  by_cases h5 : CFSwapInt32 id = MarkerID
  · rw [if_pos h5]
    exact le_of_eq_of_le' (count_pos _ _ _ _).symm (skipChunk_pos_le _ _)
  rw [if_neg h5]
  by_cases h6 : CFSwapInt32 id = InstrumentID
  · rw [if_pos h6]
    exact le_of_eq_of_le' (count_pos _ _ _ _).symm (skipChunk_pos_le _ _)
  rw [if_neg h6]
  by_cases h7 : CFSwapInt32 id = MIDIDataID
  · rw [if_pos h7]
    exact le_of_eq_of_le' (count_pos _ _ _ _).symm (skipChunk_pos_le _ _)
  rw [if_neg h7]
  by_cases h8 : CFSwapInt32 id = AudioRecordingID
  · rw [if_pos h8]
    exact le_of_eq_of_le' (count_pos _ _ _ _).symm (skipChunk_pos_le _ _)
  rw [if_neg h8]
  by_cases h9 : CFSwapInt32 id = ApplicationSpecificID
  · rw [if_pos h9]
    exact skipChunk_pos_le _ _
  rw [if_neg h9]
  by_cases h10 : CFSwapInt32 id = CommentID
  · rw [if_pos h10]
    exact le_of_eq_of_le' (count_pos _ _ _ _).symm (skipChunk_pos_le _ _)
  rw [if_neg h10]
  by_cases h11 : CFSwapInt32 id = NameID
  · rw [if_pos h11]
    exact le_of_eq_of_le' (count_pos _ _ _ _).symm (skipChunk_pos_le _ _)
  rw [if_neg h11]
  by_cases h12 : CFSwapInt32 id = AuthorID
  · rw [if_pos h12]
    exact le_of_eq_of_le' (count_pos _ _ _ _).symm (skipChunk_pos_le _ _)
  rw [if_neg h12]
  by_cases h13 : CFSwapInt32 id = CopyrightID
  · rw [if_pos h13]
    exact le_of_eq_of_le' (count_pos _ _ _ _).symm (skipChunk_pos_le _ _)
  rw [if_neg h13]
  by_cases h14 : CFSwapInt32 id = AnnotationID
  · rw [if_pos h14]
    exact skipChunk_pos_le _ _
  rw [if_neg h14]
  exact Nat.le_refl _

theorem getChunks_eof (s : State) (h : s.file.length - s.pos = 0) :
    ∃ s' : State, getChunks s = .ret 0 s' ∧ s'.file = s.file ∧ s'.pos = s.pos := by
  obtain ⟨s', h1, h2, h3, h4, _⟩ := getChunkHead_eof { s with calls := s.calls + 1 } h
  unfold getChunks
  rw [h1]
  simp only []
  rw [dispatch_foundEOF _ _ h2]
  exact ⟨s', rfl, h4, h3⟩

theorem getChunks_short (s : State) (h0 : 0 < s.file.length - s.pos)
    (h8 : s.file.length - s.pos < 8) : ∃ s' : State, getChunks s = .exit s' := by
  obtain ⟨s', h1, _⟩ := getChunkHead_short { s with calls := s.calls + 1 } h0 h8
  unfold getChunks
  rw [h1]
  exact ⟨s', rfl⟩

/-- A call of `getChunks` that returns a non-zero id has read a recognized
tag from a whole header and leaves the offset at least 8 bytes further. -/
theorem getChunks_nonzero (s s1 : State) (id : Nat) (h : getChunks s = .ret id s1)
    (hid : id ≠ 0) :
    s.pos + 8 ≤ s.file.length ∧ tagAt s.file s.pos ∈ allTags ∧ s.pos + 8 ≤ s1.pos ∧
      s1.file = s.file := by
  have hfile : s1.file = s.file := by
    have := getChunks_file s
    rw [h] at this
    exact this
  by_cases h8 : s.pos + 8 ≤ s.file.length
  · have hd := getChunks_of_header s h8
    rw [h] at hd
    have htag : tagAt s.file s.pos ∈ allTags := by
      by_contra hc
      cases he : s.foundEOF with
      | true =>
        rw [dispatch_foundEOF _ _ (by simpa using he)] at hd
        injection hd with e1 _
        exact hid e1
      | false =>
        rw [dispatch_unknown _ _ (by simpa using he) (by rw [tag_of_tagAt]; exact hc)] at hd
        injection hd with e1 _
        exact hid e1
    have hp := dispatch_pos_le (hostWord (s.file.drop s.pos)) (headState s)
    rw [← hd] at hp
    exact ⟨h8, htag, by simpa [Outcome.state] using hp, hfile⟩
  · exfalso
    by_cases h0 : s.file.length - s.pos = 0
    · obtain ⟨s', h1, _⟩ := getChunks_eof s h0
      rw [h] at h1
      injection h1 with e1 _
      exact hid e1
    · obtain ⟨s', h1⟩ := getChunks_short s (by omega) (by omega)
      rw [h] at h1
      cases h1

theorem commonChunk_file_cases (o : Opts) (s : State) :
    (commonChunk o s).file = s.file ∨
      ∃ t : Nat, (commonChunk o s).file = writeAt s.file t (ldtox80 o.sampleRate) := by
  unfold commonChunk
  simp only []
  cases lseekCur s.pos (-(backup s)) with
  | none => exact Or.inl rfl
  | some p =>
    simp only []
    unfold accessRate
    split_ifs
    · exact Or.inl rfl
    · exact Or.inr ⟨p, rfl⟩
    · exact Or.inl rfl

/-- What a pass of the loop that goes on to the next one has done. -/
theorem loopStep_next (o : Opts) (s s' : State) (h : loopStep o s = .next s') :
    s.pos + 8 ≤ s.file.length ∧ tagAt s.file s.pos ∈ allTags ∧ s.pos + 8 ≤ s'.pos ∧
      (s'.file = s.file ∨ ∃ t : Nat, s'.file = writeAt s.file t (ldtox80 o.sampleRate)) := by
  unfold loopStep at h
  cases hg : getChunks s with
  | exit s1 =>
    rw [hg] at h
    cases h
  | ret id s1 =>
    rw [hg] at h
    simp only [] at h
    by_cases hid : id = 0
    · rw [if_pos hid] at h
      cases h
    · rw [if_neg hid] at h
      obtain ⟨h1, h2, h3, h4⟩ := getChunks_nonzero s s1 id hg hid
      by_cases he : s1.foundEOF = true
      · rw [if_pos he] at h
        injection h with e
        subst e
        exact ⟨h1, h2, h3, Or.inl h4⟩
      · rw [if_neg he] at h
        by_cases hc : CFSwapInt32 id = CommonID
        · rw [if_pos hc] at h
          injection h with e
          subst e
          refine ⟨h1, h2, by rw [commonChunk_pos]; exact h3, ?_⟩
          rcases commonChunk_file_cases o s1 with hf | ⟨t, hf⟩
          · exact Or.inl (hf.trans h4)
          · exact Or.inr ⟨t, by rw [hf, h4]⟩
        · rw [if_neg hc] at h
          injection h with e
          subst e
          exact ⟨h1, h2, h3, Or.inl h4⟩

theorem pendingTags_card_le (s : State) : (pendingTags s).card ≤ s.file.length := by
  unfold pendingTags
  exact (Finset.card_filter_le _ _).trans (by simp)

/-- Each pass that goes on leaves fewer recognized tags ahead. -/
theorem pendingTags_decreases (o : Opts) (hr : o.sampleRate < 2 ^ 32) (s s' : State)
    (h : loopStep o s = .next s') : (pendingTags s').card < (pendingTags s).card := by
  obtain ⟨h1, h2, h3, h4⟩ := loopStep_next o s s' h
  have hold : ∀ q : Nat, tagAt s'.file q ∈ allTags → tagAt s.file q ∈ allTags := by
    intro q hq
    rcases h4 with hf | ⟨t, hf⟩
    · rw [hf] at hq
      exact hq
    · rw [hf] at hq
      rw [← tagAt_writeAt s.file t o.sampleRate q hr hq]
      exact hq
  apply Finset.card_lt_card
  rw [Finset.ssubset_iff_of_subset]
  · refine ⟨s.pos, ?_, ?_⟩
    · unfold pendingTags
      simp only [Finset.mem_filter, Finset.mem_range]
      exact ⟨by omega, Nat.le_refl _, h2⟩
    · unfold pendingTags
      simp only [Finset.mem_filter, Finset.mem_range, not_and]
      intro _ hle
      omega
  · intro q hq
    unfold pendingTags at hq ⊢
    simp only [Finset.mem_filter, Finset.mem_range] at hq ⊢
    have hin := tagAt_inside s.file q (hold q hq.2.2)
    exact ⟨by omega, by omega, hold q hq.2.2⟩

theorem chunkLoop_ends_of_card (o : Opts) (hr : o.sampleRate < 2 ^ 32) (n : Nat) :
    ∀ (s : State) (fuel : Nat), (pendingTags s).card < n → n ≤ fuel →
      ∃ s' : State, chunkLoop o fuel s = .done s' ∨ chunkLoop o fuel s = .exit s' := by
  induction n with
  | zero =>
    intro s fuel h _
    omega
  | succ n ih =>
    intro s fuel hc hf
    obtain ⟨k, rfl⟩ : ∃ k, fuel = k + 1 := ⟨fuel - 1, by omega⟩
    unfold chunkLoop
    cases hs : loopStep o s with
    | next s1 =>
      have hd := pendingTags_decreases o hr s s1 hs
      exact ih s1 k (by omega) (by omega)
    | done s1 => exact ⟨s1, Or.inl rfl⟩
    | exit s1 => exact ⟨s1, Or.inr rfl⟩

theorem chunkLoop_ends (o : Opts) (hr : o.sampleRate < 2 ^ 32) (s : State) (fuel : Nat)
    (hf : s.file.length < fuel) :
    ∃ s' : State, chunkLoop o fuel s = .done s' ∨ chunkLoop o fuel s = .exit s' :=
  chunkLoop_ends_of_card o hr (s.file.length + 1) s fuel
    (Nat.lt_succ_of_le (pendingTags_card_le s)) hf

theorem mainLoop_fuel (o : Opts) (hr : o.sampleRate < 2 ^ 32) (fuel : Nat)
    (files : List (List Byte)) (hf : ∀ f ∈ files, f.length < fuel) (i : Nat) (s : State)
    (before : List (List Byte)) :
    (mainLoop o fuel files i s before).status ≠ .outOfFuel := by
  induction files generalizing i s before with
  | nil =>
    unfold mainLoop
    simp
  | cons f rest ih =>
    have hrest : ∀ g ∈ rest, g.length < fuel := fun g hg => hf g (List.mem_cons_of_mem _ hg)
    have hF := getFORMChunk_file (openFile s i f)
    unfold mainLoop
    cases hg : getFORMChunk (openFile s i f) with
    | exit s1 => simp
    | ret id s1 =>
      rw [hg] at hF
      have h1 : s1.file = f := hF
      simp only []
      split_ifs
      · exact ih hrest _ _ _
      · obtain ⟨s2, h2 | h2⟩ := chunkLoop_ends o hr s1 fuel
          (by rw [h1]; exact hf f (List.mem_cons_self _ _))
        · rw [h2]
          exact ih hrest _ _ _
        · rw [h2]
          simp

/-- C17: for every file and every setting of the options (the rate being
an `unsigned int`), the chunk loop of `main` ends.  A call of `getChunks`
that returns a non-zero id leaves the offset at least 8 bytes further; the
block for the common chunk leaves the offset it recorded; a header read at
or past the end of the file ends the loop at once; and more passes than
the file has bytes are never needed: with that much fuel the loop ends by
a 0 from `getChunks` or by the exit of the process, and no run of `main`
is cut off. -/
theorem chunk_loop_terminates (o : Opts) (hr : o.sampleRate < 2 ^ 32) :
    (∀ (s s1 : State) (id : Nat), getChunks s = .ret id s1 → id ≠ 0 →
      s.pos + 8 ≤ s1.pos) ∧
    (∀ s : State, (commonChunk o s).pos = s.pos) ∧
    (∀ (s : State) (fuel : Nat), s.file.length ≤ s.pos →
      ∃ s' : State, chunkLoop o (fuel + 1) s = .done s') ∧
    (∀ (s : State) (fuel : Nat), s.file.length < fuel →
      ∃ s' : State, chunkLoop o fuel s = .done s' ∨ chunkLoop o fuel s = .exit s') ∧
    (∀ (files : List (List Byte)) (fuel : Nat), (∀ f ∈ files, f.length < fuel) →
      (main o fuel files).status ≠ .outOfFuel) := by
  refine ⟨fun s s1 id h hid => (getChunks_nonzero s s1 id h hid).2.2.1,
    fun s => commonChunk_pos o s, fun s fuel h => ?_, fun s fuel h => chunkLoop_ends o hr s fuel h,
    fun files fuel h => mainLoop_fuel o hr fuel files h 0 State.init []⟩
  obtain ⟨s', h1, _⟩ := getChunks_eof s (by omega)
  exact ⟨s', chunkLoop_of_done o fuel s s' (loopStep_of_zero o s s' h1)⟩

/-- C17, instances under `affix -s 48000`: the loop on the file with two
common chunks ends within 65 passes, and the run on the example file of 58
bytes is not cut off with fuel 59. -/
theorem chunk_loop_terminates_witness :
    (∃ s' : State,
      chunkLoop rewrite48000 65 { State.init with file := twoCommAIFF, pos := 12 } = .done s' ∨
      chunkLoop rewrite48000 65 { State.init with file := twoCommAIFF, pos := 12 }
        = .exit s') ∧
    (main rewrite48000 59 [goodAIFF]).status ≠ .outOfFuel := by
  have h := chunk_loop_terminates rewrite48000 (by decide)
  exact ⟨h.2.2.2.1 { State.init with file := twoCommAIFF, pos := 12 } 65 (by decide),
    h.2.2.2.2 [goodAIFF] 59 (by decide)⟩

end Affix
